import Mathlib

/-!
Shallow embedding of the storage/caching/indexing core of qix-go.

Sources embedded:
* `internal/models/models.go` — the data model (Project / Module / Task /
  Sprint / TimeEntry / Recurrence / TaskIndex / TrackingData) and the pure
  accessors (`GetAllTasks`, `CountByStatus`, `GetCompletionPercentage`).
* `internal/storage/storage.go` — the cache (`GetFromCache`, `PutInCache`,
  `MarkDirty`, `IsDirty`, `ClearDirty`, `InvalidateCache`, `FlushAll`)
  and the JSON codec (`writeJSONFile`, `validateJSON`).
* the storage files for projects (`LoadProject`, `SaveProject`,
  `UpdateProject`), tasks (`FindTask`, `UpdateTask`, `AddTaskDependency`),
  the index (`RebuildIndex`, `indexProject`, `SaveIndex`) and tracking
  (`LoadTrackingData`, `SaveTrackingData`, `StartTracking`).

Modelling conventions:
* Go `time.Time` instants are modelled as `Nat`, `float64` as `Rat`
  (non-finite floats never arise in the claims treated here).
* Go maps are modelled as association lists whose insert removes the old
  key first, so keys stay unique; lookup and delete are the usual ones.
* Filesystem writes can fail.  At the storage level the success of
  `writeJSONFile` for a project file is injected through an environment
  `WEnv : String → Bool` (keyed by project name); the codec itself is
  modelled separately, byte-level, for the atomic-write claim.
* Go mutator closures mutate documents in place through a pointer that is
  also held by the cache.  A mutator is modelled as
  `Project → Project × Option Err`, and the document it returns is written
  back into the cache even when it also returns an error — exactly the
  observable effect of the in-place mutation.
-/

namespace Qix

/-! ## Data model (`internal/models/models.go`) -/

inductive TaskStatus
  | todo
  | doing
  | done
  | blocked
deriving DecidableEq, Repr

inductive Priority
  | low
  | medium
  | high
deriving DecidableEq, Repr

structure TimeEntry where
  date : String
  hours : Rat
  loggedAt : Nat
deriving DecidableEq, Repr

inductive RecurrenceType
  | daily
  | weekly
  | monthly
  | interval
deriving DecidableEq, Repr

structure Recurrence where
  rtype : RecurrenceType
  value : String
  nextDue : String
  lastCompleted : String
  enabled : Bool
deriving DecidableEq, Repr

structure Task where
  id : String
  title : String
  description : String
  status : TaskStatus
  priority : Priority
  estimatedHours : Rat
  tags : List String
  dependencies : List String
  jiraIssue : String
  parentID : String
  timeEntries : List TimeEntry
  recurrence : Option Recurrence
  createdAt : Nat
  updatedAt : Nat
deriving DecidableEq, Repr

structure Module where
  name : String
  description : String
  tags : List String
  tasks : List Task
  createdAt : Nat
deriving DecidableEq, Repr

structure Sprint where
  name : String
  startDate : String
  endDate : String
  taskIDs : List String
  createdAt : Nat
deriving DecidableEq, Repr

structure Project where
  name : String
  description : String
  tags : List String
  modules : List Module
  tasks : List Task
  sprints : List Sprint
  createdAt : Nat
deriving DecidableEq, Repr

structure TaskLocation where
  project : String
  location : String
deriving DecidableEq, Repr

/-- Go `models.TaskIndex` is `map[string]TaskLocation`; association list with
unique keys maintained by `idxInsert`. -/
abbrev TaskIndex := List (String × TaskLocation)

structure TrackingSession where
  path : String
  taskID : String
  startTime : Nat
deriving DecidableEq, Repr

/-- `models.TrackingData`.  The Go `Sessions []interface{}` field only ever
holds the empty list; it is modelled with `Unit` elements. -/
structure TrackingData where
  activeSession : Option TrackingSession
  sessions : List Unit
deriving DecidableEq, Repr

/-- `Project.GetAllTasks`: project-level tasks, then each module's tasks, in
module order. -/
def Project.getAllTasks (p : Project) : List Task :=
  p.modules.foldl (fun acc m => acc ++ m.tasks) p.tasks

/-- The ids of all tasks of a document, in `getAllTasks` order. -/
def Project.allTaskIDs (p : Project) : List String :=
  p.getAllTasks.map (·.id)

/-- `Project.CountByStatus`, restricted to one status key: the count the Go
map holds for `s` after the counting loop. -/
def Project.countByStatus (p : Project) (s : TaskStatus) : Nat :=
  p.getAllTasks.foldl (fun acc t => if t.status = s then acc + 1 else acc) 0

/-- `Project.GetCompletionPercentage`: guarded division by the task count. -/
def Project.getCompletionPercentage (p : Project) : Rat :=
  let total := p.getAllTasks.length
  if total = 0 then 0
  else ((p.countByStatus TaskStatus.done : Rat) / (total : Rat)) * 100

/-! ## Errors surfaced by the storage layer -/

inductive Err
  | projectLoadFailed (name : String)
  | saveFailed (name : String)
  | flushFailed (name : String) (inner : Err)
  | moduleNotFound (name : String)
  | taskNotFound (id : String)
  | depNotFound (id : String)
  | selfDependency
  | selfParent
  | activeSessionExists (taskID : String)
  | trackingCorrupt
  | trackingSaveFailed
  | marshalFailed
  | writeFailed
  | renameFailed
  | other (msg : String)
deriving DecidableEq, Repr

/-- Does this error message mention project `n`?  `FlushAll` wraps a failed
save as `fmt.Errorf("failed to save project %s: %w", name, err)`, so the only
project names appearing in the chain are the ones recorded here. -/
def Err.mentions : Err → String → Bool
  | .projectLoadFailed n, m => n == m
  | .saveFailed n, m => n == m
  | .flushFailed n e, m => n == m || e.mentions m
  | .moduleNotFound n, m => n == m
  | _, _ => false

/-! ## Association-list maps (Go `map[string]V`) -/

def alookup {α : Type} : List (String × α) → String → Option α
  | [], _ => none
  | (k, v) :: rest, key => if k = key then some v else alookup rest key

def ainsert {α : Type} (l : List (String × α)) (key : String) (v : α) :
    List (String × α) :=
  (key, v) :: l.filter (fun e => e.1 ≠ key)

def aremove {α : Type} (l : List (String × α)) (key : String) :
    List (String × α) :=
  l.filter (fun e => e.1 ≠ key)

def idxLookup (idx : TaskIndex) (id : String) : Option TaskLocation :=
  alookup idx id

def idxInsert (idx : TaskIndex) (id : String) (loc : TaskLocation) : TaskIndex :=
  ainsert idx id loc

/-! ## Storage state

`StorageState` collects the pieces of persistent and cached state the
storage core reads and writes: the `projects/*.json` files (parsed), the
in-memory project cache, the dirty set, the in-memory task index, the
`index.json` snapshot and the `tracking.json` file. -/

inductive DiskDoc
  | good (doc : Project)
  | corrupt
deriving DecidableEq, Repr

inductive TrackFile
  | absent
  | present (data : TrackingData)
  | corrupt
deriving DecidableEq, Repr

structure StorageState where
  disk : List (String × DiskDoc)
  cache : List (String × Project)
  dirty : List String
  index : TaskIndex
  indexFile : Option TaskIndex
  trackFile : TrackFile
deriving DecidableEq, Repr

/-- Whether the atomic write of a given project's file succeeds: the fault
environment threaded through every save. -/
abbrev WEnv := String → Bool

/-! ### Cache primitives (`internal/storage/storage.go`) -/

def getFromCache (st : StorageState) (name : String) : Option Project :=
  alookup st.cache name

def putInCache (st : StorageState) (name : String) (p : Project) : StorageState :=
  { st with cache := ainsert st.cache name p }

def markDirty (st : StorageState) (name : String) : StorageState :=
  { st with dirty := if name ∈ st.dirty then st.dirty else name :: st.dirty }

def isDirty (st : StorageState) (name : String) : Bool :=
  decide (name ∈ st.dirty)

def clearDirty (st : StorageState) (name : String) : StorageState :=
  { st with dirty := st.dirty.filter (fun n => n ≠ name) }

def invalidateCache (st : StorageState) (name : String) : StorageState :=
  { st with
    cache := aremove st.cache name
    dirty := st.dirty.filter (fun n => n ≠ name) }

def listProjects (st : StorageState) : List String :=
  st.disk.map (·.1)

/-! ### Index maintenance (`RebuildIndex` / `indexProject` / `SaveIndex`) -/

/-- Add index entries for every task of document `p` (project-level tasks at
location `"project"`, then module tasks at `"module:<name>"`), the common
body of `RebuildIndex` and `indexProject`. -/
def indexDocInto (projectName : String) (p : Project) (idx : TaskIndex) : TaskIndex :=
  let idx1 := p.tasks.foldl
    (fun acc t => idxInsert acc t.id ⟨projectName, "project"⟩) idx
  p.modules.foldl
    (fun acc m => m.tasks.foldl
      (fun a t => idxInsert a t.id ⟨projectName, "module:" ++ m.name⟩) acc)
    idx1

/-- The index transformation performed by `indexProject`: drop every entry
whose location points at `projectName`, then re-add entries for the tasks of
`p`. -/
def indexProjectIdx (projectName : String) (p : Project) (idx : TaskIndex) :
    TaskIndex :=
  indexDocInto projectName p (idx.filter (fun e => e.2.project ≠ projectName))

/-- `SaveIndex` persists the in-memory index to `index.json` (snapshot write;
modelled as succeeding). -/
def saveIndex (st : StorageState) : StorageState × Option Err :=
  ({ st with indexFile := some st.index }, none)

/-- `indexProject`: updates the in-memory index, then dispatches `SaveIndex`
in a goroutine.  The asynchronous snapshot write is outside the sequential
model; the returned state reflects exactly what callers observe when
`indexProject` returns. -/
def indexProjectS (projectName : String) (p : Project) (st : StorageState) :
    StorageState × Option Err :=
  ({ st with index := indexProjectIdx projectName p st.index }, none)

/-! ### Load / save / update (`LoadProject`, `SaveProject`, `UpdateProject`) -/

def loadProject (st : StorageState) (name : String) :
    StorageState × Except Err Project :=
  match getFromCache st name with
  | some p => (st, .ok p)
  | none =>
    match alookup st.disk name with
    | some (.good p) => (putInCache st name p, .ok p)
    | some .corrupt => (st, .error (.projectLoadFailed name))
    | none => (st, .error (.projectLoadFailed name))

/-- `validateJSON`: `json.Marshal` on these value types can only fail on
non-finite floats, which the `Rat` model excludes, so validation succeeds. -/
def validateJSON (_p : Project) : Option Err := none

def saveProject (env : WEnv) (st : StorageState) (name : String) (p : Project) :
    StorageState × Option Err :=
  match validateJSON p with
  | some e => (st, some e)
  | none =>
    if env name then
      let st1 := { st with disk := ainsert st.disk name (DiskDoc.good p) }
      let st2 := putInCache st1 name p
      let st3 := clearDirty st2 name
      indexProjectS name p st3
    else (st, some (.saveFailed name))

def updateProject (env : WEnv) (st : StorageState) (name : String)
    (mutator : Project → Project × Option Err) : StorageState × Option Err :=
  match loadProject st name with
  | (st1, .error e) => (st1, some e)
  | (st1, .ok p) =>
    let (p', me) := mutator p
    let st2 := putInCache st1 name p'
    match me with
    | some e => (st2, some e)
    | none => saveProject env st2 name p'

/-! ### FlushAll -/

def flushGo (env : WEnv) : StorageState → List String → StorageState × Option Err
  | st, [] => (st, none)
  | st, n :: rest =>
    match getFromCache st n with
    | none => flushGo env st rest
    | some p =>
      match saveProject env st n p with
      | (st1, none) => flushGo env st1 rest
      | (st1, some e) => (st1, some (.flushFailed n e))

/-- `FlushAll`: snapshot the dirty set under the lock, then save each entry
that is present in the cache, returning at the first failure. -/
def flushAll (env : WEnv) (st : StorageState) : StorageState × Option Err :=
  flushGo env st st.dirty

/-! ### RebuildIndex -/

def rebuildGo (st : StorageState) (idx : TaskIndex) :
    List String → StorageState × TaskIndex
  | [] => (st, idx)
  | n :: rest =>
    match loadProject st n with
    | (st1, .error _) => rebuildGo st1 idx rest
    | (st1, .ok p) => rebuildGo st1 (indexDocInto n p idx) rest

def rebuildIndex (st : StorageState) : StorageState × Option Err :=
  let (st1, newIdx) := rebuildGo st [] (listProjects st)
  saveIndex { st1 with index := newIdx }

/-! ### Task lookup and mutation (`FindTask`, `UpdateTask`,
`AddTaskDependency`) -/

def findInModules (taskID : String) : List Module → Option (Task × String)
  | [] => none
  | m :: rest =>
    match m.tasks.find? (fun t => t.id == taskID) with
    | some t => some (t, "module:" ++ m.name)
    | none => findInModules taskID rest

def findTaskLoc (p : Project) (taskID : String) : Option (Task × String) :=
  match p.tasks.find? (fun t => t.id == taskID) with
  | some t => some (t, "project")
  | none => findInModules taskID p.modules

def findTask (st : StorageState) (projectName taskID : String) :
    StorageState × Except Err (Task × String) :=
  match loadProject st projectName with
  | (st1, .error e) => (st1, .error e)
  | (st1, .ok p) =>
    match findTaskLoc p taskID with
    | some r => (st1, .ok r)
    | none => (st1, .error (.taskNotFound taskID))

/-- The scan of `UpdateTask` over one task list: apply the updater to the
first task whose id matches.  On updater success the task's `UpdatedAt` is
set; on updater error the (possibly in-place mutated) task is kept and the
error propagated.  `none` means no task in this list matched. -/
def updateTaskInList (taskID : String) (u : Task → Task × Option Err)
    (now : Nat) : List Task → Option (List Task × Option Err)
  | [] => none
  | t :: rest =>
    if t.id = taskID then
      let (t', e) := u t
      match e with
      | some err => some (t' :: rest, some err)
      | none => some ({ t' with updatedAt := now } :: rest, none)
    else
      match updateTaskInList taskID u now rest with
      | some (rest', e) => some (t :: rest', e)
      | none => none

def updateTaskInModules (taskID : String) (u : Task → Task × Option Err)
    (now : Nat) : List Module → Option (List Module × Option Err)
  | [] => none
  | m :: rest =>
    match updateTaskInList taskID u now m.tasks with
    | some (ts', e) => some ({ m with tasks := ts' } :: rest, e)
    | none =>
      match updateTaskInModules taskID u now rest with
      | some (rest', e) => some (m :: rest', e)
      | none => none

/-- The mutator closure `UpdateTask` passes to `UpdateProject`: project-level
tasks first, then module tasks, else `task not found`. -/
def updateTaskMutator (taskID : String) (u : Task → Task × Option Err)
    (now : Nat) (p : Project) : Project × Option Err :=
  match updateTaskInList taskID u now p.tasks with
  | some (ts', e) => ({ p with tasks := ts' }, e)
  | none =>
    match updateTaskInModules taskID u now p.modules with
    | some (ms', e) => ({ p with modules := ms' }, e)
    | none => (p, some (.taskNotFound taskID))

def updateTask (env : WEnv) (st : StorageState) (projectName taskID : String)
    (u : Task → Task × Option Err) (now : Nat) : StorageState × Option Err :=
  updateProject env st projectName (updateTaskMutator taskID u now)

/-- The updater `AddTaskDependency` applies to the target task: already
present → success without change; self-dependency → error; otherwise
append. -/
def addDepUpdater (dependsOnID : String) (t : Task) : Task × Option Err :=
  if dependsOnID ∈ t.dependencies then (t, none)
  else if t.id = dependsOnID then (t, some .selfDependency)
  else ({ t with dependencies := t.dependencies ++ [dependsOnID] }, none)

def addTaskDependency (env : WEnv) (st : StorageState)
    (projectName taskID dependsOnID : String) (now : Nat) :
    StorageState × Option Err :=
  match findTask st projectName dependsOnID with
  | (st1, .error _) => (st1, some (.depNotFound dependsOnID))
  | (st1, .ok _) =>
    updateTask env st1 projectName taskID (addDepUpdater dependsOnID) now

/-! ### Tracking (`LoadTrackingData`, `SaveTrackingData`, `StartTracking`) -/

def loadTrackingData (st : StorageState) : Except Err TrackingData :=
  match st.trackFile with
  | .absent => .ok ⟨none, []⟩
  | .present d => .ok d
  | .corrupt => .error .trackingCorrupt

/-- `StartTracking`.  `twOk` injects the success of the `tracking.json`
write. -/
def startTracking (twOk : Bool) (st : StorageState)
    (projectName moduleName taskID : String) (now : Nat) :
    StorageState × Option Err :=
  match findTask st projectName taskID with
  | (st1, .error e) => (st1, some e)
  | (st1, .ok _) =>
    match loadTrackingData st1 with
    | .error e => (st1, some e)
    | .ok data =>
      match data.activeSession with
      | some sess => (st1, some (.activeSessionExists sess.taskID))
      | none =>
        let path := if moduleName = "" then projectName
          else projectName ++ "/" ++ moduleName
        let data' := { data with activeSession := some ⟨path, taskID, now⟩ }
        if twOk then ({ st1 with trackFile := .present data' }, none)
        else (st1, some .trackingSaveFailed)

/-! ## Byte-level codec model (`writeJSONFile`)

For the atomic-write claim the codec is modelled over a filesystem of
file contents, with fault injection for `os.WriteFile` and `os.Rename`. -/

abbrev FS := List (String × String)

/-- Outcome of `os.WriteFile`: success, or failure leaving either no file or
a partial file at the target path. -/
inductive WriteOutcome
  | ok
  | fail (leftover : Option String)
deriving DecidableEq, Repr

def osWriteFile (fs : FS) (path content : String) :
    WriteOutcome → FS × Bool
  | .ok => (ainsert fs path content, true)
  | .fail none => (fs, false)
  | .fail (some leftover) => (ainsert fs path leftover, false)

def osRename (fs : FS) (src dst : String) (renameOk : Bool) : FS × Bool :=
  if renameOk then
    match alookup fs src with
    | some c => (ainsert (aremove fs src) dst c, true)
    | none => (fs, false)
  else (fs, false)

/-- `writeJSONFile path v`: marshal (`marshalled` is the serialization
result, `none` if `json.MarshalIndent` fails), write the whole content to
`path + ".tmp"`, atomically rename over `path`; on rename failure remove the
temp file. -/
def writeJSONFile (fs : FS) (path : String) (marshalled : Option String)
    (wo : WriteOutcome) (renameOk : Bool) : FS × Option Err :=
  match marshalled with
  | none => (fs, some .marshalFailed)
  | some data =>
    let tempPath := path ++ ".tmp"
    match osWriteFile fs tempPath data wo with
    | (fs1, false) => (fs1, some .writeFailed)
    | (fs1, true) =>
      match osRename fs1 tempPath path renameOk with
      | (fs2, true) => (fs2, none)
      | (fs2, false) => (aremove fs2 tempPath, some .renameFailed)

/-! ## Specification-side helper definitions (used only to state and prove
properties; not translations of source functions) -/

/-- The document a `loadProject` call would observe: the cached copy if
present, else the parseable document on disk. -/
def effDoc (st : StorageState) (n : String) : Option Project :=
  match getFromCache st n with
  | some p => some p
  | none =>
    match alookup st.disk n with
    | some (.good p) => some p
    | some .corrupt => none
    | none => none

/-- The index `RebuildIndex` computes, as a pure function of the listing and
the observed documents. -/
def pureRebuild (f : String → Option Project) : List String → TaskIndex → TaskIndex
  | [], idx => idx
  | n :: rest, idx =>
    match f n with
    | some p => pureRebuild f rest (indexDocInto n p idx)
    | none => pureRebuild f rest idx

/-- The last module in `ms` (in list order) that contains a task with id
`id`; its entry is the one surviving the module-indexing fold. -/
def lastModuleWith (id : String) (ms : List Module) : Option Module :=
  ms.foldl (fun acc m => if id ∈ m.tasks.map (·.id) then some m else acc) none

/-! ## Concrete fixtures for witnesses and counterexamples -/

def taskA : Task :=
  { id := "aaaaaaaa", title := "A", description := "", status := .todo,
    priority := .medium, estimatedHours := 0, tags := [], dependencies := [],
    jiraIssue := "", parentID := "", timeEntries := [], recurrence := none,
    createdAt := 0, updatedAt := 0 }

def taskB : Task :=
  { taskA with id := "bbbbbbbb", title := "B" }

def taskC : Task :=
  { taskA with id := "cccccccc", title := "C" }

def modM : Module :=
  { name := "core", description := "", tags := [], tasks := [taskC],
    createdAt := 0 }

def projDemo : Project :=
  { name := "demo", description := "", tags := [], modules := [],
    tasks := [taskA, taskB], sprints := [], createdAt := 0 }

def projMod : Project :=
  { projDemo with modules := [modM] }

def projEmpty : Project :=
  { projDemo with tasks := [] }

def stDemo : StorageState :=
  { disk := [("demo", .good projDemo)], cache := [], dirty := [],
    index := [], indexFile := none, trackFile := .absent }

def stMod : StorageState :=
  { stDemo with
    disk := [("demo", .good projMod)]
    index := [("dddddddd", ⟨"demo", "project"⟩), ("eeeeeeee", ⟨"other", "project"⟩)] }

def envAll : WEnv := fun _ => true

def envNone : WEnv := fun _ => false

def envNotA : WEnv := fun n => n ≠ "a"

def projPA : Project := { projEmpty with name := "a" }

def projPB : Project := { projEmpty with name := "b" }

def projPBnew : Project := { projPB with description := "newer" }

def stFlush : StorageState :=
  { disk := [("a", .good projPA), ("b", .good projPB)],
    cache := [("a", projPA), ("b", projPBnew)], dirty := ["a", "b"],
    index := [], indexFile := none, trackFile := .absent }

def diskP : Project := { projEmpty with name := "p" }

def cacheP : Project := { diskP with description := "unsaved change" }

def stDirty : StorageState :=
  { disk := [("p", .good diskP)], cache := [("p", cacheP)], dirty := ["p"],
    index := [], indexFile := none, trackFile := .absent }

/-- A mutator that changes the document and then reports an error. -/
def mutRefuse : Project → Project × Option Err :=
  fun p => ({ p with description := "X" }, some (.other "refused"))

/-- A mutator that changes the document and succeeds. -/
def mutOk : Project → Project × Option Err :=
  fun p => ({ p with description := "Y" }, none)

def projDemoX : Project := { projDemo with description := "X" }

def taskAdep : Task := { taskA with dependencies := ["bbbbbbbb"] }

def projDep : Project := { projDemo with tasks := [taskAdep, taskB] }

def stDep : StorageState :=
  { stDemo with disk := [("demo", .good projDep)] }

def stTrackActive : StorageState :=
  { stDemo with trackFile := .present ⟨some ⟨"demo", "cccccccc", 1⟩, []⟩ }

def fsOld : FS := [("p.json", "old")]

/-! ## Association-list lemmas -/

theorem alookup_filter_ne {α : Type} (l : List (String × α)) (k key : String)
    (h : key ≠ k) :
    alookup (l.filter (fun e => e.1 ≠ k)) key = alookup l key := by
  induction l with
  | nil => rfl
  | cons e rest ih =>
    rw [List.filter_cons]
    by_cases hek : e.1 = k
    · rw [if_neg (by simp [hek]), ih]
      simp only [alookup]
      rw [if_neg (fun hh => h (by rw [← hh]; exact hek))]
    · rw [if_pos (by simp [hek])]
      simp only [alookup]
      by_cases hke : e.1 = key
      · rw [if_pos hke, if_pos hke]
      · rw [if_neg hke, if_neg hke]
        exact ih

theorem alookup_ainsert_self {α : Type} (l : List (String × α)) (k : String)
    (v : α) : alookup (ainsert l k v) k = some v := by
  simp [ainsert, alookup]

theorem alookup_ainsert_ne {α : Type} (l : List (String × α)) (k key : String)
    (v : α) (h : key ≠ k) : alookup (ainsert l k v) key = alookup l key := by
  unfold ainsert
  simp only [alookup]
  rw [if_neg (fun hh => h hh.symm)]
  exact alookup_filter_ne l k key h

theorem alookup_aremove_self {α : Type} (l : List (String × α)) (k : String) :
    alookup (aremove l k) k = none := by
  induction l with
  | nil => rfl
  | cons e rest ih =>
    unfold aremove at ih ⊢
    rw [List.filter_cons]
    by_cases hek : e.1 = k
    · rw [if_neg (by simp [hek])]
      exact ih
    · rw [if_pos (by simp [hek])]
      simp only [alookup]
      rw [if_neg hek]
      exact ih

theorem alookup_aremove_ne {α : Type} (l : List (String × α)) (k key : String)
    (h : key ≠ k) : alookup (aremove l k) key = alookup l key :=
  alookup_filter_ne l k key h

theorem alookup_eq_none_of_not_mem_keys {α : Type} (l : List (String × α))
    (key : String) (h : key ∉ l.map (·.1)) : alookup l key = none := by
  induction l with
  | nil => rfl
  | cons e rest ih =>
    simp only [alookup]
    rw [if_neg (fun hh => h (by simp [hh]))]
    exact ih (fun hm => h (by simp at hm ⊢; right; exact hm))

/-! ## Basic state-operation lemmas -/

theorem loadProject_preserves (st : StorageState) (n : String) :
    (loadProject st n).1.disk = st.disk ∧ (loadProject st n).1.dirty = st.dirty ∧
    (loadProject st n).1.index = st.index ∧
    (loadProject st n).1.indexFile = st.indexFile ∧
    (loadProject st n).1.trackFile = st.trackFile := by
  unfold loadProject
  cases h : getFromCache st n with
  | some p => exact ⟨rfl, rfl, rfl, rfl, rfl⟩
  | none =>
    cases h2 : alookup st.disk n with
    | none => exact ⟨rfl, rfl, rfl, rfl, rfl⟩
    | some d => cases d <;> exact ⟨rfl, rfl, rfl, rfl, rfl⟩

theorem loadProject_ok_cache (st st1 : StorageState) (n : String) (p : Project)
    (h : loadProject st n = (st1, .ok p)) : getFromCache st1 n = some p := by
  unfold loadProject at h
  cases hc : getFromCache st n with
  | some q =>
    rw [hc] at h
    injection h with h1 h2
    injection h2 with h3
    rw [← h1, ← h3]
    exact hc
  | none =>
    rw [hc] at h
    cases hd : alookup st.disk n with
    | none => rw [hd] at h; injection h with h1 h2; cases h2
    | some d =>
      cases d with
      | corrupt => rw [hd] at h; injection h with h1 h2; cases h2
      | good q =>
        rw [hd] at h
        injection h with h1 h2
        injection h2 with h3
        rw [← h1, ← h3]
        exact alookup_ainsert_self ..

theorem loadProject_again (st st1 : StorageState) (n : String) (p : Project)
    (h : loadProject st n = (st1, .ok p)) : loadProject st1 n = (st1, .ok p) := by
  have hc := loadProject_ok_cache st st1 n p h
  unfold loadProject
  rw [hc]

theorem saveProject_success (env : WEnv) (st : StorageState) (n : String)
    (p : Project) (h : env n = true) :
    saveProject env st n p =
      ({ st with
          disk := ainsert st.disk n (DiskDoc.good p)
          cache := ainsert st.cache n p
          dirty := st.dirty.filter (fun m => m ≠ n)
          index := indexProjectIdx n p st.index }, none) := by
  simp [saveProject, validateJSON, h, putInCache, clearDirty, indexProjectS]

theorem saveProject_fail (env : WEnv) (st : StorageState) (n : String)
    (p : Project) (h : env n = false) :
    saveProject env st n p = (st, some (.saveFailed n)) := by
  simp [saveProject, validateJSON, h]

theorem findTask_trackFile (st : StorageState) (pn tid : String) :
    (findTask st pn tid).1.trackFile = st.trackFile := by
  unfold findTask
  have hp := (loadProject_preserves st pn).2.2.2.2
  cases hl : loadProject st pn with
  | mk st1 r =>
    rw [hl] at hp
    cases r with
    | error e => exact hp
    | ok p =>
      cases h2 : findTaskLoc p tid with
      | some r => simp only [h2]; exact hp
      | none => simp only [h2]; exact hp

/-! ## Claim C10 -/

/-- C10: for a project with zero tasks (no project-level tasks and no module
tasks), `GetCompletionPercentage` returns 0: the division by the task count
is guarded by the zero check. -/
theorem C10_completion_zero_on_empty (p : Project)
    (h : p.getAllTasks = []) : p.getCompletionPercentage = 0 := by
  simp [Project.getCompletionPercentage, h]

/-- Witness for C10 at the concrete empty project. -/
theorem C10_completion_zero_on_empty_witness :
    projEmpty.getAllTasks = [] ∧ projEmpty.getCompletionPercentage = 0 :=
  ⟨rfl, C10_completion_zero_on_empty projEmpty rfl⟩

/-! ## UpdateProject case lemmas -/

theorem updateProject_err_load (env : WEnv) (st st1 : StorageState)
    (name : String) (m : Project → Project × Option Err) (e : Err)
    (hload : loadProject st name = (st1, .error e)) :
    updateProject env st name m = (st1, some e) := by
  simp only [updateProject, hload]

theorem updateProject_ok_case (env : WEnv) (st st1 : StorageState)
    (name : String) (m : Project → Project × Option Err) (P p' : Project)
    (me : Option Err) (hload : loadProject st name = (st1, .ok P))
    (hm : m P = (p', me)) :
    updateProject env st name m =
      (match me with
        | some e => (putInCache st1 name p', some e)
        | none => saveProject env (putInCache st1 name p') name p') := by
  simp only [updateProject, hload, hm]
  cases me <;> rfl

theorem not_mem_filter_ne_self (l : List String) (n : String) :
    n ∉ l.filter (fun m => m ≠ n) := by
  intro hm
  rw [List.mem_filter] at hm
  simp at hm

/-! ## Claim C2 -/

/-- C2 (amended): if the mutator returns an error, `UpdateProject` performs
no disk write and the document on disk is unchanged; but the mutator runs
against the cached document in place, so the next `LoadProject` returns the
document the mutator produced — it equals the pre-call document exactly when
the mutator did not modify it on its error path. -/
theorem C2_mutator_error_no_write (env : WEnv) (st st1 : StorageState)
    (name : String) (m : Project → Project × Option Err) (P p' : Project)
    (e : Err) (hload : loadProject st name = (st1, .ok P))
    (hm : m P = (p', some e)) :
    updateProject env st name m = (putInCache st1 name p', some e) ∧
    (putInCache st1 name p').disk = st.disk ∧
    (loadProject (putInCache st1 name p') name).2 = .ok p' ∧
    (p' = P → (loadProject (putInCache st1 name p') name).2 = .ok P) := by
  have h1 : updateProject env st name m = (putInCache st1 name p', some e) :=
    updateProject_ok_case env st st1 name m P p' (some e) hload hm
  have hd : st1.disk = st.disk := by
    have hh := (loadProject_preserves st name).1
    rw [hload] at hh
    exact hh
  have hc : getFromCache (putInCache st1 name p') name = some p' :=
    alookup_ainsert_self ..
  have h3 : (loadProject (putInCache st1 name p') name).2 = .ok p' := by
    simp only [loadProject, hc]
  exact ⟨h1, hd, h3, fun hp => hp ▸ h3⟩

/-- Counterexample to C2 as stated: a mutator that edits the description and
then returns an error leaves the disk unchanged, but the next `loadProject`
returns the mutated document, not the pre-call one. -/
theorem C2_counterexample :
    (updateProject envAll stDemo "demo" mutRefuse).2 = some (Err.other "refused") ∧
    (updateProject envAll stDemo "demo" mutRefuse).1.disk = stDemo.disk ∧
    (loadProject (updateProject envAll stDemo "demo" mutRefuse).1 "demo").2 =
      .ok projDemoX ∧
    projDemoX ≠ projDemo := by
  refine ⟨rfl, rfl, rfl, ?_⟩
  decide

/-- Witness for C2 at a concrete state and mutator. -/
theorem C2_mutator_error_no_write_witness :
    updateProject envAll stDemo "demo" mutRefuse =
      (putInCache (putInCache stDemo "demo" projDemo) "demo" projDemoX,
        some (Err.other "refused")) ∧
    (putInCache (putInCache stDemo "demo" projDemo) "demo" projDemoX).disk =
      stDemo.disk ∧
    (loadProject (putInCache (putInCache stDemo "demo" projDemo) "demo" projDemoX)
        "demo").2 = .ok projDemoX ∧
    (projDemoX = projDemo →
      (loadProject (putInCache (putInCache stDemo "demo" projDemo) "demo"
          projDemoX) "demo").2 = .ok projDemo) :=
  C2_mutator_error_no_write envAll stDemo (putInCache stDemo "demo" projDemo)
    "demo" mutRefuse projDemo projDemoX (Err.other "refused") rfl rfl

/-! ## Claim C4 -/

/-- C4 (amended): no mutation through `UpdateProject` ever sets the dirty
flag — the dirty set never grows across an `UpdateProject` call — and the
flag is also cleared by cache invalidation without a save; what does hold is
that after a successful `UpdateProject`, `IsDirty(name)` is false and the
cached document equals the document on disk. -/
theorem C4_dirty_discipline (env : WEnv) (st : StorageState) (name : String)
    (m : Project → Project × Option Err) :
    ((updateProject env st name m).1.dirty = st.dirty ∨
      (updateProject env st name m).1.dirty =
        st.dirty.filter (fun n => n ≠ name)) ∧
    (∀ st', updateProject env st name m = (st', none) →
      isDirty st' name = false ∧
      ∃ p', getFromCache st' name = some p' ∧
        alookup st'.disk name = some (DiskDoc.good p')) := by
  cases hl : loadProject st name with
  | mk st1 r =>
    have hdirty : st1.dirty = st.dirty := by
      have hh := (loadProject_preserves st name).2.1
      rw [hl] at hh
      exact hh
    cases r with
    | error e =>
      rw [updateProject_err_load env st st1 name m e hl]
      constructor
      · left; exact hdirty
      · intro st' h
        injection h with h1 h2
        cases h2
    | ok P =>
      cases hm : m P with
      | mk p' me =>
        rw [updateProject_ok_case env st st1 name m P p' me hl hm]
        cases me with
        | some e =>
          constructor
          · left; exact hdirty
          · intro st' h
            injection h with h1 h2
            cases h2
        | none =>
          cases henv : env name with
          | false =>
            rw [saveProject_fail env (putInCache st1 name p') name p' henv]
            constructor
            · left; exact hdirty
            · intro st' h
              injection h with h1 h2
              cases h2
          | true =>
            rw [saveProject_success env (putInCache st1 name p') name p' henv]
            constructor
            · right
              show st1.dirty.filter (fun n => n ≠ name) = _
              rw [hdirty]
            · intro st' h
              injection h with h1 h2
              rw [← h1]
              refine ⟨?_, p', alookup_ainsert_self .., alookup_ainsert_self ..⟩
              exact decide_eq_false (not_mem_filter_ne_self st1.dirty name)

/-- Counterexample to C4 as stated: `InvalidateCache` clears the dirty flag
of a project whose unsaved cached document differs from the document on
disk, with no write to disk — the flag becomes false without the project
having been persisted. -/
theorem C4_counterexample :
    isDirty stDirty "p" = true ∧
    getFromCache stDirty "p" = some cacheP ∧
    alookup stDirty.disk "p" = some (DiskDoc.good diskP) ∧
    cacheP ≠ diskP ∧
    isDirty (invalidateCache stDirty "p") "p" = false ∧
    (invalidateCache stDirty "p").disk = stDirty.disk := by
  refine ⟨rfl, rfl, rfl, ?_, rfl, rfl⟩
  decide

/-- Witness for C4 at a concrete successful update. -/
theorem C4_dirty_discipline_witness :
    isDirty (updateProject envAll stDemo "demo" mutOk).1 "demo" = false ∧
    ∃ p', getFromCache (updateProject envAll stDemo "demo" mutOk).1 "demo" =
        some p' ∧
      alookup (updateProject envAll stDemo "demo" mutOk).1.disk "demo" =
        some (DiskDoc.good p') :=
  (C4_dirty_discipline envAll stDemo "demo" mutOk).2
    (updateProject envAll stDemo "demo" mutOk).1 rfl

/-! ## Claim C9 -/

theorem startTracking_err_find (twOk : Bool) (st st1 : StorageState)
    (pn mn tid : String) (now : Nat) (e : Err)
    (hf : findTask st pn tid = (st1, .error e)) :
    startTracking twOk st pn mn tid now = (st1, some e) := by
  simp only [startTracking, hf]

/-- C9: if an active tracking session already exists, `StartTracking`
returns an error and leaves the persisted tracking data unchanged; and when
the referenced task does not exist in the named project it fails without
creating a session. -/
theorem C9_startTracking_guards (twOk : Bool) (st : StorageState)
    (pn mn tid : String) (now : Nat) :
    (∀ d sess, st.trackFile = .present d → d.activeSession = some sess →
      (startTracking twOk st pn mn tid now).2.isSome = true ∧
      (startTracking twOk st pn mn tid now).1.trackFile = st.trackFile) ∧
    (∀ st1 e, findTask st pn tid = (st1, .error e) →
      startTracking twOk st pn mn tid now = (st1, some e) ∧
      st1.trackFile = st.trackFile) := by
  constructor
  · intro d sess hd hs
    cases hf : findTask st pn tid with
    | mk st1 r =>
      have htf : st1.trackFile = st.trackFile := by
        have hh := findTask_trackFile st pn tid
        rw [hf] at hh
        exact hh
      cases r with
      | error e =>
        rw [startTracking_err_find twOk st st1 pn mn tid now e hf]
        exact ⟨rfl, htf⟩
      | ok pr =>
        have hd1 : st1.trackFile = .present d := htf.trans hd
        have hrun : startTracking twOk st pn mn tid now =
            (st1, some (.activeSessionExists sess.taskID)) := by
          simp only [startTracking, hf, loadTrackingData, hd1, hs]
        rw [hrun]
        exact ⟨rfl, htf⟩
  · intro st1 e hf
    have htf : st1.trackFile = st.trackFile := by
      have hh := findTask_trackFile st pn tid
      rw [hf] at hh
      exact hh
    exact ⟨startTracking_err_find twOk st st1 pn mn tid now e hf, htf⟩

/-- Witness for C9: a state with an active session rejects a new start and
keeps `tracking.json`; a missing task id fails without creating a session. -/
theorem C9_startTracking_guards_witness :
    ((startTracking true stTrackActive "demo" "" "aaaaaaaa" 5).2.isSome = true ∧
      (startTracking true stTrackActive "demo" "" "aaaaaaaa" 5).1.trackFile =
        stTrackActive.trackFile) ∧
    (startTracking true stDemo "demo" "" "zzzzzzzz" 5 =
      (putInCache stDemo "demo" projDemo, some (Err.taskNotFound "zzzzzzzz")) ∧
      (putInCache stDemo "demo" projDemo).trackFile = stDemo.trackFile) :=
  ⟨(C9_startTracking_guards true stTrackActive "demo" "" "aaaaaaaa" 5).1
      ⟨some ⟨"demo", "cccccccc", 1⟩, []⟩ ⟨"demo", "cccccccc", 1⟩ rfl rfl,
    (C9_startTracking_guards true stDemo "demo" "" "zzzzzzzz" 5).2
      (putInCache stDemo "demo" projDemo) (Err.taskNotFound "zzzzzzzz") rfl⟩

/-! ## Claim C3 -/

theorem ne_append_tmp (path : String) : path ++ ".tmp" ≠ path := by
  intro h
  have h2 := congrArg String.length h
  rw [String.length_append] at h2
  have h3 : (".tmp" : String).length = 4 := by decide
  omega

/-- C3 (amended): the write operation validates that the document serializes
(an unserializable document produces an error with no filesystem change),
writes the full content to the sibling temp file and atomically renames it
over the target; on any failure the original file at the target path is left
untouched, and on a rename failure the temp file is removed — but on a
failure of the write to the temp file itself the temp file is not removed
(a partial temp file may remain). -/
theorem C3_writeJSONFile_atomic (fs : FS) (path data : String)
    (wo : WriteOutcome) (renameOk : Bool) :
    (writeJSONFile fs path (some data) .ok true).2 = none ∧
    alookup (writeJSONFile fs path (some data) .ok true).1 path = some data ∧
    alookup (writeJSONFile fs path (some data) .ok true).1 (path ++ ".tmp") =
      none ∧
    ((writeJSONFile fs path (some data) wo renameOk).2.isSome = true →
      alookup (writeJSONFile fs path (some data) wo renameOk).1 path =
        alookup fs path) ∧
    (wo = .ok → renameOk = false →
      alookup (writeJSONFile fs path (some data) wo renameOk).1
        (path ++ ".tmp") = none) ∧
    (writeJSONFile fs path none wo renameOk).1 = fs ∧
    (writeJSONFile fs path none wo renameOk).2 = some Err.marshalFailed := by
  have htmp : path ++ ".tmp" ≠ path := ne_append_tmp path
  have hw : osWriteFile fs (path ++ ".tmp") data .ok =
      (ainsert fs (path ++ ".tmp") data, true) := rfl
  have hl : alookup (ainsert fs (path ++ ".tmp") data) (path ++ ".tmp") =
      some data := alookup_ainsert_self ..
  have hr : osRename (ainsert fs (path ++ ".tmp") data) (path ++ ".tmp") path
        true =
      (ainsert (aremove (ainsert fs (path ++ ".tmp") data) (path ++ ".tmp"))
        path data, true) := by
    unfold osRename
    rw [if_pos rfl, hl]
  have heq : writeJSONFile fs path (some data) .ok true =
      (ainsert (aremove (ainsert fs (path ++ ".tmp") data) (path ++ ".tmp"))
        path data, none) := by
    simp only [writeJSONFile, hw, hr]
  have hr2 : osRename (ainsert fs (path ++ ".tmp") data) (path ++ ".tmp") path
        false = (ainsert fs (path ++ ".tmp") data, false) := by
    unfold osRename
    rw [if_neg (by simp)]
  have heqf : writeJSONFile fs path (some data) .ok false =
      (aremove (ainsert fs (path ++ ".tmp") data) (path ++ ".tmp"),
        some Err.renameFailed) := by
    simp only [writeJSONFile, hw, hr2]
  refine ⟨?_, ?_, ?_, ?_, ?_, rfl, rfl⟩
  · rw [heq]
  · rw [heq]
    exact alookup_ainsert_self ..
  · rw [heq]
    show alookup (ainsert _ path data) (path ++ ".tmp") = none
    rw [alookup_ainsert_ne _ _ _ _ htmp]
    exact alookup_aremove_self ..
  · intro hsome
    cases wo with
    | ok =>
      cases renameOk with
      | true => rw [heq] at hsome; simp at hsome
      | false =>
        rw [heqf]
        show alookup (aremove _ (path ++ ".tmp")) path = alookup fs path
        rw [alookup_aremove_ne _ _ _ (Ne.symm htmp)]
        exact alookup_ainsert_ne fs _ path data (Ne.symm htmp)
    | fail leftover =>
      cases leftover with
      | none => rfl
      | some left =>
        have hwf : osWriteFile fs (path ++ ".tmp") data (.fail (some left)) =
            (ainsert fs (path ++ ".tmp") left, false) := rfl
        have heqw : writeJSONFile fs path (some data) (.fail (some left))
              renameOk =
            (ainsert fs (path ++ ".tmp") left, some Err.writeFailed) := by
          simp only [writeJSONFile, hwf]
        rw [heqw]
        exact alookup_ainsert_ne fs _ path left (Ne.symm htmp)
  · intro hwo hro
    subst hwo
    subst hro
    rw [heqf]
    exact alookup_aremove_self ..

/-- Counterexample to C3 as stated: when the write to the temp file fails
midway, the partial temp file is not removed (only rename failures are
cleaned up); the original file is untouched. -/
theorem C3_counterexample :
    (writeJSONFile fsOld "p.json" (some "new") (.fail (some "par")) true).2 =
      some Err.writeFailed ∧
    alookup (writeJSONFile fsOld "p.json" (some "new") (.fail (some "par"))
        true).1 "p.json" = some "old" ∧
    alookup (writeJSONFile fsOld "p.json" (some "new") (.fail (some "par"))
        true).1 "p.json.tmp" = some "par" :=
  ⟨rfl, rfl, rfl⟩

/-- Witness for C3 at a concrete rename failure: original untouched, temp
removed. -/
theorem C3_writeJSONFile_atomic_witness :
    alookup (writeJSONFile fsOld "p.json" (some "new") .ok false).1 "p.json" =
      alookup fsOld "p.json" ∧
    alookup (writeJSONFile fsOld "p.json" (some "new") .ok false).1
      ("p.json" ++ ".tmp") = none := by
  have h := C3_writeJSONFile_atomic fsOld "p.json" "new" .ok false
  exact ⟨h.2.2.2.1 rfl, h.2.2.2.2.1 rfl rfl⟩

/-! ## Claim C1 -/

theorem flushGo_disk_stable (env : WEnv) :
    ∀ (l : List String) (st : StorageState) (m : String), m ∉ l →
      alookup (flushGo env st l).1.disk m = alookup st.disk m := by
  intro l
  induction l with
  | nil => intro st m _; rfl
  | cons n rest ih =>
    intro st m hm
    have hmn : m ≠ n := fun hh => hm (by simp [hh])
    have hmr : m ∉ rest := fun hh => hm (by simp [hh])
    simp only [flushGo]
    cases hc : getFromCache st n with
    | none => exact ih st m hmr
    | some p =>
      show alookup (match saveProject env st n p with
        | (st1, none) => flushGo env st1 rest
        | (st1, some e) => (st1, some (Err.flushFailed n e))).1.disk m =
          alookup st.disk m
      cases henv : env n with
      | false =>
        rw [saveProject_fail env st n p henv]
      | true =>
        rw [saveProject_success env st n p henv]
        rw [ih _ m hmr]
        show alookup (ainsert st.disk n (DiskDoc.good p)) m = _
        exact alookup_ainsert_ne _ _ _ _ hmn

theorem flushGo_first_failure (env : WEnv) :
    ∀ (l : List String) (st st' : StorageState) (e : Err), l.Nodup →
      flushGo env st l = (st', some e) →
      ∃ pre n post, l = pre ++ n :: post ∧
        (∀ m ∈ pre, getFromCache st m = none ∨ env m = true) ∧
        (getFromCache st n).isSome = true ∧ env n = false ∧
        e = .flushFailed n (.saveFailed n) ∧
        (∀ m ∈ pre, ∀ q, getFromCache st m = some q →
          alookup st'.disk m = some (DiskDoc.good q)) := by
  intro l
  induction l with
  | nil =>
    intro st st' e _ h
    injection h with h1 h2
    cases h2
  | cons n rest ih =>
    intro st st' e hnd h
    obtain ⟨hn_notin, hnd_rest⟩ := List.nodup_cons.mp hnd
    simp only [flushGo] at h
    cases hc : getFromCache st n with
    | none =>
      simp only [hc] at h
      obtain ⟨pre, n', post, hdec, hpre, hsome, henv, he, hdisk⟩ :=
        ih st st' e hnd_rest h
      refine ⟨n :: pre, n', post, by rw [hdec]; rfl, ?_, hsome, henv, he, ?_⟩
      · intro m hm
        rcases List.mem_cons.mp hm with hm1 | hm2
        · exact Or.inl (hm1 ▸ hc)
        · exact hpre m hm2
      · intro m hm q hq
        rcases List.mem_cons.mp hm with hm1 | hm2
        · rw [hm1] at hq
          rw [hq] at hc
          cases hc
        · exact hdisk m hm2 q hq
    | some p =>
      simp only [hc] at h
      cases henv : env n with
      | false =>
        rw [saveProject_fail env st n p henv] at h
        injection h with h1 h2
        injection h2 with h3
        refine ⟨[], n, rest, rfl, ?_, ?_, henv, h3.symm, ?_⟩
        · intro m hm
          exact absurd hm (List.not_mem_nil m)
        · rw [hc]; rfl
        · intro m hm q hq
          exact absurd hm (List.not_mem_nil m)
      | true =>
        rw [saveProject_success env st n p henv] at h
        have h' : flushGo env { st with
            disk := ainsert st.disk n (DiskDoc.good p)
            cache := ainsert st.cache n p
            dirty := st.dirty.filter (fun x => x ≠ n)
            index := indexProjectIdx n p st.index } rest = (st', some e) := h
        obtain ⟨pre, n', post, hdec, hpre, hsome, henv', he, hdisk⟩ :=
          ih _ st' e hnd_rest h'
        have hcache_ne : ∀ m, m ≠ n →
            getFromCache { st with
              disk := ainsert st.disk n (DiskDoc.good p)
              cache := ainsert st.cache n p
              dirty := st.dirty.filter (fun x => x ≠ n)
              index := indexProjectIdx n p st.index } m = getFromCache st m := by
          intro m hm
          exact alookup_ainsert_ne _ _ _ _ hm
        have hself : getFromCache { st with
            disk := ainsert st.disk n (DiskDoc.good p)
            cache := ainsert st.cache n p
            dirty := st.dirty.filter (fun x => x ≠ n)
            index := indexProjectIdx n p st.index } n = some p :=
          alookup_ainsert_self ..
        refine ⟨n :: pre, n', post, by rw [hdec]; rfl, ?_, ?_, henv', he, ?_⟩
        · intro m hm
          rcases List.mem_cons.mp hm with hm1 | hm2
          · subst hm1
            exact Or.inr henv
          · rcases hpre m hm2 with hnone | htrue
            · by_cases hmn : m = n
              · subst hmn
                rw [hself] at hnone
                cases hnone
              · left
                rw [← hcache_ne m hmn]
                exact hnone
            · exact Or.inr htrue
        · by_cases hmn : n' = n
          · rw [hmn, hc]; rfl
          · rw [← hcache_ne n' hmn]
            exact hsome
        · intro m hm q hq
          rcases List.mem_cons.mp hm with hm1 | hm2
          · subst hm1
            rw [hc] at hq
            injection hq with hq1
            subst hq1
            have hstp : st' = (flushGo env { st with
                disk := ainsert st.disk m (DiskDoc.good p)
                cache := ainsert st.cache m p
                dirty := st.dirty.filter (fun x => x ≠ m)
                index := indexProjectIdx m p st.index } rest).1 := by
              rw [h']
            rw [hstp, flushGo_disk_stable env rest _ m hn_notin]
            exact alookup_ainsert_self ..
          · have hmrest : m ∈ rest := by
              rw [hdec]
              exact List.mem_append.mpr (Or.inl hm2)
            have hmn : m ≠ n := fun hh => hn_notin (hh ▸ hmrest)
            refine hdisk m hm2 q ?_
            rw [hcache_ne m hmn]
            exact hq

/-- C1 (amended): `FlushAll` attempts the dirty projects in order, skipping
entries missing from the cache, and stops at the first cached dirty project
whose save fails: every dirty project before it was skipped or saved to
disk, the error returned names only that first failing project, and dirty
projects after it are not attempted.  (The dirty set is a Go map, so its
keys are distinct.) -/
theorem C1_flushAll_first_failure (env : WEnv) (st st' : StorageState)
    (e : Err) (hnd : st.dirty.Nodup) (h : flushAll env st = (st', some e)) :
    ∃ pre n post, st.dirty = pre ++ n :: post ∧
      (∀ m ∈ pre, getFromCache st m = none ∨ env m = true) ∧
      (getFromCache st n).isSome = true ∧ env n = false ∧
      e = .flushFailed n (.saveFailed n) ∧
      (∀ m, e.mentions m = true → m = n) ∧
      (∀ m ∈ pre, ∀ q, getFromCache st m = some q →
        alookup st'.disk m = some (DiskDoc.good q)) := by
  obtain ⟨pre, n, post, hdec, hpre, hsome, henv, he, hdisk⟩ :=
    flushGo_first_failure env st.dirty st st' e hnd h
  refine ⟨pre, n, post, hdec, hpre, hsome, henv, he, ?_, hdisk⟩
  intro m hm
  rw [he] at hm
  simp [Err.mentions] at hm
  exact hm.symm

/-- Counterexample to C1 as stated: with two dirty cached projects where
only the first save fails, `FlushAll` returns an error that does not name
the second project and leaves it dirty and unsaved on disk, although its
save would have succeeded — it stopped at the first failure instead of
attempting every entry. -/
theorem C1_counterexample :
    (flushAll envNotA stFlush).2 =
      some (Err.flushFailed "a" (Err.saveFailed "a")) ∧
    Err.mentions (Err.flushFailed "a" (Err.saveFailed "a")) "b" = false ∧
    "b" ∈ stFlush.dirty ∧
    getFromCache stFlush "b" = some projPBnew ∧
    envNotA "b" = true ∧
    alookup (flushAll envNotA stFlush).1.disk "b" = some (DiskDoc.good projPB) ∧
    projPBnew ≠ projPB ∧
    "b" ∈ (flushAll envNotA stFlush).1.dirty := by
  refine ⟨rfl, rfl, by decide, rfl, rfl, rfl, by decide, by decide⟩

/-- Witness for C1 at a concrete state where every save fails. -/
theorem C1_flushAll_first_failure_witness :
    ∃ pre n post, stFlush.dirty = pre ++ n :: post ∧
      (∀ m ∈ pre, getFromCache stFlush m = none ∨ envNone m = true) ∧
      (getFromCache stFlush n).isSome = true ∧ envNone n = false ∧
      Err.flushFailed "a" (Err.saveFailed "a") =
        .flushFailed n (.saveFailed n) ∧
      (∀ m, (Err.flushFailed "a" (Err.saveFailed "a")).mentions m = true →
        m = n) ∧
      (∀ m ∈ pre, ∀ q, getFromCache stFlush m = some q →
        alookup stFlush.disk m = some (DiskDoc.good q)) :=
  C1_flushAll_first_failure envNone stFlush stFlush
    (Err.flushFailed "a" (Err.saveFailed "a")) (by decide) rfl

/-! ## Claim C6 -/

theorem getFromCache_putInCache_self (st : StorageState) (n : String)
    (p : Project) : getFromCache (putInCache st n p) n = some p :=
  alookup_ainsert_self ..

theorem getFromCache_putInCache_ne (st : StorageState) (n : String)
    (p : Project) (m : String) (h : m ≠ n) :
    getFromCache (putInCache st n p) m = getFromCache st m :=
  alookup_ainsert_ne _ _ _ _ h

theorem effDoc_putInCache (st : StorageState) (n : String) (p : Project)
    (m : String) (hgood : effDoc st n = some p) :
    effDoc (putInCache st n p) m = effDoc st m := by
  by_cases hmn : m = n
  · subst hmn
    unfold effDoc
    rw [show getFromCache (putInCache st m p) m = some p from
      getFromCache_putInCache_self ..]
    show some p = _
    exact hgood.symm
  · unfold effDoc
    rw [show getFromCache (putInCache st n p) m = getFromCache st m from
      getFromCache_putInCache_ne st n p m hmn]
    exact rfl

theorem loadProject_effDoc_res (st : StorageState) (n : String) :
    (loadProject st n).2 = (match effDoc st n with
      | some p => Except.ok p
      | none => Except.error (Err.projectLoadFailed n)) := by
  unfold loadProject effDoc
  cases hc : getFromCache st n with
  | some p => rfl
  | none =>
    cases hd : alookup st.disk n with
    | none => rfl
    | some d => cases d <;> rfl

theorem loadProject_effDoc_pres (st : StorageState) (n m : String) :
    effDoc (loadProject st n).1 m = effDoc st m := by
  unfold loadProject
  cases hc : getFromCache st n with
  | some p => rfl
  | none =>
    cases hd : alookup st.disk n with
    | none => rfl
    | some d =>
      cases d with
      | corrupt => rfl
      | good p =>
        show effDoc (putInCache st n p) m = effDoc st m
        refine effDoc_putInCache st n p m ?_
        unfold effDoc
        rw [hc, hd]

theorem pureRebuild_congr (f g : String → Option Project)
    (h : ∀ n, f n = g n) :
    ∀ (l : List String) (idx : TaskIndex),
      pureRebuild f l idx = pureRebuild g l idx := by
  intro l
  induction l with
  | nil => intro idx; rfl
  | cons n rest ih =>
    intro idx
    simp only [pureRebuild, h n]
    cases g n with
    | none => exact ih idx
    | some p => exact ih (indexDocInto n p idx)

theorem rebuildGo_spec (l : List String) :
    ∀ (st : StorageState) (idx : TaskIndex),
      (rebuildGo st idx l).2 = pureRebuild (effDoc st) l idx ∧
      (∀ m, effDoc (rebuildGo st idx l).1 m = effDoc st m) ∧
      (rebuildGo st idx l).1.disk = st.disk ∧
      (rebuildGo st idx l).1.index = st.index ∧
      (rebuildGo st idx l).1.indexFile = st.indexFile := by
  induction l with
  | nil => intro st idx; exact ⟨rfl, fun m => rfl, rfl, rfl, rfl⟩
  | cons n rest ih =>
    intro st idx
    simp only [rebuildGo]
    cases hl : loadProject st n with
    | mk st1 r =>
      have hres := loadProject_effDoc_res st n
      rw [hl] at hres
      have hpres : ∀ m, effDoc st1 m = effDoc st m := by
        intro m
        have hh := loadProject_effDoc_pres st n m
        rw [hl] at hh
        exact hh
      have hpd := loadProject_preserves st n
      rw [hl] at hpd
      cases r with
      | error e =>
        have heff : effDoc st n = none := by
          cases heffc : effDoc st n with
          | none => rfl
          | some q =>
            rw [heffc] at hres
            have hres' : (Except.error e : Except Err Project) = Except.ok q :=
              hres
            cases hres'
        obtain ⟨ih2, ihe, ihd, ihi, ihf⟩ := ih st1 idx
        refine ⟨?_, ?_, ?_, ?_, ?_⟩
        · show (rebuildGo st1 idx rest).2 = pureRebuild (effDoc st) (n :: rest) idx
          calc (rebuildGo st1 idx rest).2
              = pureRebuild (effDoc st1) rest idx := ih2
            _ = pureRebuild (effDoc st) rest idx :=
              pureRebuild_congr _ _ hpres rest idx
            _ = pureRebuild (effDoc st) (n :: rest) idx := by
              simp [pureRebuild, heff]
        · intro m
          show effDoc (rebuildGo st1 idx rest).1 m = effDoc st m
          rw [ihe m, hpres m]
        · show (rebuildGo st1 idx rest).1.disk = st.disk
          rw [ihd]
          exact hpd.1
        · show (rebuildGo st1 idx rest).1.index = st.index
          rw [ihi]
          exact hpd.2.2.1
        · show (rebuildGo st1 idx rest).1.indexFile = st.indexFile
          rw [ihf]
          exact hpd.2.2.2.1
      | ok p =>
        have heff : effDoc st n = some p := by
          cases heffc : effDoc st n with
          | none =>
            rw [heffc] at hres
            have hres' : (Except.ok p : Except Err Project) =
                Except.error (Err.projectLoadFailed n) := hres
            cases hres'
          | some q =>
            rw [heffc] at hres
            have hres' : (Except.ok p : Except Err Project) = Except.ok q :=
              hres
            injection hres' with hq
            exact congrArg some hq.symm
        obtain ⟨ih2, ihe, ihd, ihi, ihf⟩ := ih st1 (indexDocInto n p idx)
        refine ⟨?_, ?_, ?_, ?_, ?_⟩
        · show (rebuildGo st1 (indexDocInto n p idx) rest).2 =
            pureRebuild (effDoc st) (n :: rest) idx
          calc (rebuildGo st1 (indexDocInto n p idx) rest).2
              = pureRebuild (effDoc st1) rest (indexDocInto n p idx) := ih2
            _ = pureRebuild (effDoc st) rest (indexDocInto n p idx) :=
              pureRebuild_congr _ _ hpres rest _
            _ = pureRebuild (effDoc st) (n :: rest) idx := by
              simp [pureRebuild, heff]
        · intro m
          show effDoc (rebuildGo st1 (indexDocInto n p idx) rest).1 m =
            effDoc st m
          rw [ihe m, hpres m]
        · show (rebuildGo st1 (indexDocInto n p idx) rest).1.disk = st.disk
          rw [ihd]
          exact hpd.1
        · show (rebuildGo st1 (indexDocInto n p idx) rest).1.index = st.index
          rw [ihi]
          exact hpd.2.2.1
        · show (rebuildGo st1 (indexDocInto n p idx) rest).1.indexFile =
            st.indexFile
          rw [ihf]
          exact hpd.2.2.2.1

theorem rebuildIndex_components (st : StorageState) :
    (rebuildIndex st).1.index = pureRebuild (effDoc st) (listProjects st) [] ∧
    (rebuildIndex st).1.indexFile =
      some (pureRebuild (effDoc st) (listProjects st) []) ∧
    (rebuildIndex st).1.disk = st.disk ∧
    (∀ m, effDoc (rebuildIndex st).1 m = effDoc st m) := by
  unfold rebuildIndex saveIndex
  cases hr : rebuildGo st [] (listProjects st) with
  | mk st1 idx =>
    have hspec := rebuildGo_spec (listProjects st) st []
    rw [hr] at hspec
    obtain ⟨hidx, heff, hdisk, hindex, hif⟩ := hspec
    exact ⟨hidx, congrArg some hidx, hdisk, heff⟩

/-- C6: `RebuildIndex` is idempotent: with no project documents changing in
between, a second `RebuildIndex` produces identical in-memory index contents
and an identical persisted snapshot. -/
theorem C6_rebuildIndex_idempotent (st : StorageState) :
    (rebuildIndex (rebuildIndex st).1).1.index = (rebuildIndex st).1.index ∧
    (rebuildIndex (rebuildIndex st).1).1.indexFile =
      (rebuildIndex st).1.indexFile := by
  obtain ⟨h1i, h1f, h1d, h1e⟩ := rebuildIndex_components st
  obtain ⟨h2i, h2f, h2d, h2e⟩ := rebuildIndex_components (rebuildIndex st).1
  have hlist : listProjects (rebuildIndex st).1 = listProjects st := by
    unfold listProjects
    rw [h1d]
  have hpure : pureRebuild (effDoc (rebuildIndex st).1) (listProjects st) [] =
      pureRebuild (effDoc st) (listProjects st) [] :=
    pureRebuild_congr _ _ h1e (listProjects st) []
  constructor
  · rw [h2i, hlist, hpure, h1i]
  · rw [h2f, hlist, hpure, h1f]

/-! ## Claim C5 -/

theorem idxLookup_idxInsert (idx : TaskIndex) (k : String) (v : TaskLocation)
    (key : String) :
    idxLookup (idxInsert idx k v) key =
      if key = k then some v else idxLookup idx key := by
  by_cases h : key = k
  · rw [if_pos h, h]
    exact alookup_ainsert_self ..
  · rw [if_neg h]
    exact alookup_ainsert_ne _ _ _ _ h

theorem lookup_taskFold (L : TaskLocation) :
    ∀ (ts : List Task) (idx : TaskIndex) (id : String),
      idxLookup (ts.foldl (fun acc t => idxInsert acc t.id L) idx) id =
        if id ∈ ts.map (·.id) then some L else idxLookup idx id := by
  intro ts
  induction ts with
  | nil => intro idx id; simp
  | cons t rest ih =>
    intro idx id
    rw [List.foldl_cons, ih (idxInsert idx t.id L) id]
    by_cases hmem : id ∈ rest.map (·.id)
    · rw [if_pos hmem, if_pos (by simp [hmem])]
    · rw [if_neg hmem, idxLookup_idxInsert]
      by_cases hid : id = t.id
      · rw [if_pos hid, if_pos (by simp [hid])]
      · rw [if_neg hid, if_neg (by simp [hid, hmem, Ne.symm])]

theorem lmw_foldl (id : String) :
    ∀ (ms : List Module) (acc : Option Module),
      ms.foldl (fun acc m => if id ∈ m.tasks.map (·.id) then some m else acc)
        acc =
      (match lastModuleWith id ms with
        | some m => some m
        | none => acc) := by
  intro ms
  induction ms with
  | nil => intro acc; rfl
  | cons m rest ih =>
    intro acc
    have hdef : lastModuleWith id (m :: rest) =
        (match lastModuleWith id rest with
          | some x => some x
          | none => if id ∈ m.tasks.map (·.id) then some m else none) := by
      show rest.foldl _ (if id ∈ m.tasks.map (·.id) then some m else none) = _
      exact ih _
    rw [List.foldl_cons, ih _, hdef]
    cases lastModuleWith id rest with
    | some x => rfl
    | none =>
      by_cases hmem : id ∈ m.tasks.map (·.id)
      · simp [hmem]
      · simp [hmem]

theorem lastModuleWith_cons (id : String) (m : Module) (rest : List Module) :
    lastModuleWith id (m :: rest) =
      (match lastModuleWith id rest with
        | some x => some x
        | none => if id ∈ m.tasks.map (·.id) then some m else none) := by
  show rest.foldl _ (if id ∈ m.tasks.map (·.id) then some m else none) = _
  exact lmw_foldl id rest _

theorem lookup_modulesFold (name : String) :
    ∀ (ms : List Module) (idx : TaskIndex) (id : String),
      idxLookup (ms.foldl (fun acc m => m.tasks.foldl
          (fun a t => idxInsert a t.id ⟨name, "module:" ++ m.name⟩) acc) idx)
        id =
      (match lastModuleWith id ms with
        | some m => some ⟨name, "module:" ++ m.name⟩
        | none => idxLookup idx id) := by
  intro ms
  induction ms with
  | nil => intro idx id; rfl
  | cons m rest ih =>
    intro idx id
    rw [List.foldl_cons, ih _ id, lastModuleWith_cons]
    cases lastModuleWith id rest with
    | some x => rfl
    | none =>
      rw [lookup_taskFold]
      by_cases hmem : id ∈ m.tasks.map (·.id)
      · rw [if_pos hmem]
        simp [hmem]
      · rw [if_neg hmem]
        simp [hmem]

theorem idxLookup_filter_project (name : String) :
    ∀ (idx : TaskIndex), (idx.map (·.1)).Nodup → ∀ id,
      idxLookup (idx.filter (fun e => e.2.project ≠ name)) id =
        (match idxLookup idx id with
          | some loc => if loc.project = name then none else some loc
          | none => none) := by
  intro idx
  induction idx with
  | nil => intro _ id; rfl
  | cons e rest ih =>
    intro hnd id
    have hnd' : (e.1 :: rest.map (·.1)).Nodup := hnd
    obtain ⟨hkey, hnd_rest⟩ := List.nodup_cons.mp hnd'
    rw [List.filter_cons]
    by_cases hproj : e.2.project = name
    · rw [if_neg (by simp [hproj]), ih hnd_rest id]
      show _ = (match alookup (e :: rest) id with
        | some loc => if loc.project = name then none else some loc
        | none => none)
      simp only [alookup]
      by_cases hid : e.1 = id
      · rw [if_pos hid]
        have hnone : alookup rest id = none :=
          alookup_eq_none_of_not_mem_keys rest id (by rw [← hid]; exact hkey)
        show (match alookup rest id with
          | some loc => if loc.project = name then none else some loc
          | none => none) = _
        rw [hnone]
        simp [hproj]
      · rw [if_neg hid]
        rfl
    · rw [if_pos (by simp [hproj])]
      show alookup (e :: rest.filter (fun e => e.2.project ≠ name)) id = _
      simp only [idxLookup, alookup]
      by_cases hid : e.1 = id
      · rw [if_pos hid, if_pos hid]
        simp [hproj]
      · rw [if_neg hid, if_neg hid]
        exact ih hnd_rest id

theorem foldl_append_tasks :
    ∀ (ms : List Module) (acc : List Task),
      ms.foldl (fun a m => a ++ m.tasks) acc =
        acc ++ (ms.map (·.tasks)).flatten := by
  intro ms
  induction ms with
  | nil => intro acc; simp
  | cons m rest ih =>
    intro acc
    rw [List.foldl_cons, ih]
    simp [List.append_assoc]

theorem getAllTasks_eq (p : Project) :
    p.getAllTasks = p.tasks ++ (p.modules.map (·.tasks)).flatten :=
  foldl_append_tasks p.modules p.tasks

theorem map_id_flatten :
    ∀ ms : List Module,
      ((ms.map (·.tasks)).flatten).map (fun t => t.id) =
        (ms.map (fun m => m.tasks.map (·.id))).flatten := by
  intro ms
  induction ms with
  | nil => rfl
  | cons m rest ih => simp [ih]

theorem allTaskIDs_eq (p : Project) :
    p.allTaskIDs = p.tasks.map (·.id) ++
      (p.modules.map (fun m => m.tasks.map (·.id))).flatten := by
  unfold Project.allTaskIDs
  rw [getAllTasks_eq, List.map_append, map_id_flatten]

theorem lastModuleWith_eq_none_iff (id : String) :
    ∀ ms : List Module,
      lastModuleWith id ms = none ↔ ∀ m ∈ ms, id ∉ m.tasks.map (·.id) := by
  intro ms
  induction ms with
  | nil => simp [lastModuleWith]
  | cons m rest ih =>
    rw [lastModuleWith_cons]
    cases hr : lastModuleWith id rest with
    | some x =>
      show some x = none ↔ _
      constructor
      · intro h; cases h
      · intro hall
        exfalso
        have hnone := ih.mpr (fun m' hm' => hall m' (List.mem_cons_of_mem m hm'))
        rw [hnone] at hr
        cases hr
    | none =>
      show (if id ∈ m.tasks.map (·.id) then some m else none) = none ↔ _
      by_cases hmem : id ∈ m.tasks.map (·.id)
      · rw [if_pos hmem]
        constructor
        · intro h; cases h
        · intro hall
          exact absurd hmem (hall m (List.mem_cons_self m rest))
      · rw [if_neg hmem]
        constructor
        · intro _ m' hm'
          rcases List.mem_cons.mp hm' with h1 | h2
          · rw [h1]; exact hmem
          · exact (ih.mp hr) m' h2
        · intro _; rfl

theorem lastModuleWith_of_mem (id : String) :
    ∀ (ms : List Module),
      ((ms.map (fun m => m.tasks.map (·.id))).flatten).Nodup →
      ∀ m ∈ ms, id ∈ m.tasks.map (·.id) → lastModuleWith id ms = some m := by
  intro ms
  induction ms with
  | nil => intro _ m hm; exact absurd hm (List.not_mem_nil m)
  | cons m0 rest ih =>
    intro hnd m hm hid
    have hnd2 : (m0.tasks.map (·.id) ++
        (rest.map (fun m => m.tasks.map (·.id))).flatten).Nodup := by
      simpa using hnd
    obtain ⟨hnd0, hndrest, hdisj⟩ := List.nodup_append.mp hnd2
    rw [lastModuleWith_cons]
    rcases List.mem_cons.mp hm with h1 | h2
    · have hidm0 : id ∈ m0.tasks.map (·.id) := by rw [← h1]; exact hid
      have hnotflat : id ∉ (rest.map (fun m => m.tasks.map (·.id))).flatten :=
        hdisj hidm0
      have hrestnone : lastModuleWith id rest = none :=
        (lastModuleWith_eq_none_iff id rest).mpr
          (fun m' hm' hmem' => hnotflat
            (List.mem_flatten.mpr
              ⟨m'.tasks.map (·.id), List.mem_map_of_mem _ hm', hmem'⟩))
      rw [hrestnone]
      show (if id ∈ m0.tasks.map (·.id) then some m0 else none) = some m
      rw [if_pos hidm0, h1]
    · have hflat : id ∈ (rest.map (fun m => m.tasks.map (·.id))).flatten :=
        List.mem_flatten.mpr ⟨m.tasks.map (·.id), List.mem_map_of_mem _ h2, hid⟩
      rw [ih hndrest m h2 hid]

theorem idxLookup_indexProjectIdx (name : String) (p : Project)
    (idx : TaskIndex) (id : String) (hk : (idx.map (·.1)).Nodup) :
    idxLookup (indexProjectIdx name p idx) id =
      (match lastModuleWith id p.modules with
        | some m => some ⟨name, "module:" ++ m.name⟩
        | none =>
          if id ∈ p.tasks.map (·.id) then some ⟨name, "project"⟩
          else match idxLookup idx id with
            | some loc => if loc.project = name then none else some loc
            | none => none) := by
  unfold indexProjectIdx indexDocInto
  rw [lookup_modulesFold name p.modules _ id]
  cases lastModuleWith id p.modules with
  | some m => rfl
  | none =>
    rw [lookup_taskFold ⟨name, "project"⟩ p.tasks _ id]
    by_cases hmem : id ∈ p.tasks.map (·.id)
    · rw [if_pos hmem, if_pos hmem]
    · rw [if_neg hmem, if_neg hmem]
      exact idxLookup_filter_project name idx hk id

/-- C5: `indexProject` first removes every index entry whose location points
at the given project name, then adds one entry per task of the given
document (project-level tasks at location `"project"`, module tasks at
`"module:<name>"`); it runs at the end of every successful `SaveProject`,
and when it returns the in-memory index agrees with the saved document. -/
theorem C5_indexProject (env : WEnv) (st st' : StorageState) (name : String)
    (p : Project) (hsave : saveProject env st name p = (st', none))
    (hnd : p.allTaskIDs.Nodup) (hk : (st.index.map (·.1)).Nodup) :
    st'.index = indexProjectIdx name p st.index ∧
    (∀ t ∈ p.tasks, idxLookup st'.index t.id = some ⟨name, "project"⟩) ∧
    (∀ m ∈ p.modules, ∀ t ∈ m.tasks,
      idxLookup st'.index t.id = some ⟨name, "module:" ++ m.name⟩) ∧
    (∀ id, id ∉ p.allTaskIDs →
      idxLookup st'.index id =
        (match idxLookup st.index id with
          | some loc => if loc.project = name then none else some loc
          | none => none)) := by
  have hsplit : (p.tasks.map (·.id) ++
      (p.modules.map (fun m => m.tasks.map (·.id))).flatten).Nodup := by
    rw [← allTaskIDs_eq]
    exact hnd
  obtain ⟨hndt, hndm, hdisj⟩ := List.nodup_append.mp hsplit
  have hidx : st'.index = indexProjectIdx name p st.index := by
    cases henv : env name with
    | false =>
      rw [saveProject_fail env st name p henv] at hsave
      injection hsave with h1 h2
      cases h2
    | true =>
      rw [saveProject_success env st name p henv] at hsave
      injection hsave with h1 h2
      rw [← h1]
  refine ⟨hidx, ?_, ?_, ?_⟩
  · intro t ht
    have hmemt : t.id ∈ p.tasks.map (·.id) := List.mem_map_of_mem _ ht
    have hnomod : lastModuleWith t.id p.modules = none :=
      (lastModuleWith_eq_none_iff t.id p.modules).mpr
        (fun m' hm' hmem' => hdisj hmemt
          (List.mem_flatten.mpr
            ⟨m'.tasks.map (·.id), List.mem_map_of_mem _ hm', hmem'⟩))
    rw [hidx, idxLookup_indexProjectIdx name p st.index t.id hk, hnomod]
    show (if t.id ∈ p.tasks.map (·.id) then _ else _) = _
    rw [if_pos hmemt]
  · intro m hm t ht
    have hmemm : t.id ∈ m.tasks.map (·.id) := List.mem_map_of_mem _ ht
    have hlast : lastModuleWith t.id p.modules = some m :=
      lastModuleWith_of_mem t.id p.modules hndm m hm hmemm
    rw [hidx, idxLookup_indexProjectIdx name p st.index t.id hk, hlast]
  · intro id hid
    rw [allTaskIDs_eq] at hid
    have hid1 : id ∉ p.tasks.map (·.id) :=
      fun hh => hid (List.mem_append.mpr (Or.inl hh))
    have hid2 : id ∉ (p.modules.map (fun m => m.tasks.map (·.id))).flatten :=
      fun hh => hid (List.mem_append.mpr (Or.inr hh))
    have hnomod : lastModuleWith id p.modules = none :=
      (lastModuleWith_eq_none_iff id p.modules).mpr
        (fun m' hm' hmem' => hid2
          (List.mem_flatten.mpr
            ⟨m'.tasks.map (·.id), List.mem_map_of_mem _ hm', hmem'⟩))
    rw [hidx, idxLookup_indexProjectIdx name p st.index id hk, hnomod]
    show (if id ∈ p.tasks.map (·.id) then _ else _) = _
    rw [if_neg hid1]

/-- Witness for C5 at a concrete save of a document with a project-level
task list and one module, over an index holding a stale entry for this
project and an entry for another project. -/
theorem C5_indexProject_witness :
    (saveProject envAll stMod "demo" projMod).1.index =
      indexProjectIdx "demo" projMod stMod.index ∧
    (∀ t ∈ projMod.tasks,
      idxLookup (saveProject envAll stMod "demo" projMod).1.index t.id =
        some ⟨"demo", "project"⟩) ∧
    (∀ m ∈ projMod.modules, ∀ t ∈ m.tasks,
      idxLookup (saveProject envAll stMod "demo" projMod).1.index t.id =
        some ⟨"demo", "module:" ++ m.name⟩) ∧
    (∀ id, id ∉ projMod.allTaskIDs →
      idxLookup (saveProject envAll stMod "demo" projMod).1.index id =
        (match idxLookup stMod.index id with
          | some loc => if loc.project = "demo" then none else some loc
          | none => none)) :=
  C5_indexProject envAll stMod (saveProject envAll stMod "demo" projMod).1
    "demo" projMod rfl (by decide) (by decide)

/-! ## UpdateTask scan lemmas (for C7 and C8) -/

theorem utl_not_found (taskID : String) (u : Task → Task × Option Err)
    (now : Nat) :
    ∀ ts : List Task, taskID ∉ ts.map (·.id) →
      updateTaskInList taskID u now ts = none := by
  intro ts
  induction ts with
  | nil => intro _; rfl
  | cons t rest ih =>
    intro hm
    simp only [updateTaskInList]
    rw [if_neg (fun hh : t.id = taskID => hm (by simp [← hh]))]
    rw [ih (fun hh => hm (by simp [hh]))]

theorem utl_found_err (taskID : String) (u : Task → Task × Option Err)
    (now : Nat) (E : Err) :
    ∀ ts : List Task, (∀ t ∈ ts, t.id = taskID → u t = (t, some E)) →
      taskID ∈ ts.map (·.id) →
      updateTaskInList taskID u now ts = some (ts, some E) := by
  intro ts
  induction ts with
  | nil => intro _ hm; cases hm
  | cons t rest ih =>
    intro hE hm
    simp only [updateTaskInList]
    by_cases hid : t.id = taskID
    · rw [if_pos hid, hE t (List.mem_cons_self t rest) hid]
    · rw [if_neg hid]
      have hm2 : taskID ∈ t.id :: rest.map (·.id) := by
        rw [List.map_cons] at hm
        exact hm
      have hmr : taskID ∈ rest.map (·.id) := by
        rcases List.mem_cons.mp hm2 with h1 | h2
        · exact absurd h1.symm hid
        · exact h2
      rw [ih (fun t' ht' => hE t' (List.mem_cons_of_mem t ht')) hmr]

theorem utl_found_ok (taskID : String) (u : Task → Task × Option Err)
    (now : Nat) :
    ∀ ts : List Task, (∀ t ∈ ts, t.id = taskID → u t = (t, none)) →
      taskID ∈ ts.map (·.id) →
      ∃ ts', updateTaskInList taskID u now ts = some (ts', none) ∧
        ts'.map (fun t => (t.id, t.dependencies)) =
          ts.map (fun t => (t.id, t.dependencies)) ∧
        ts'.map (·.id) = ts.map (·.id) ∧
        ((ts.map (·.id)).Nodup →
          ∀ t ∈ ts', t.id = taskID → t.updatedAt = now) := by
  intro ts
  induction ts with
  | nil => intro _ hm; cases hm
  | cons t rest ih =>
    intro hok hm
    simp only [updateTaskInList]
    by_cases hid : t.id = taskID
    · rw [if_pos hid, hok t (List.mem_cons_self t rest) hid]
      refine ⟨{ t with updatedAt := now } :: rest, rfl, by simp, by simp, ?_⟩
      intro hnd t'' ht'' htid
      rcases List.mem_cons.mp ht'' with h1 | h2
      · rw [h1]
      · exfalso
        have hmem2 : t.id ∈ rest.map (·.id) := by
          rw [hid, ← htid]
          exact List.mem_map_of_mem _ h2
        have hnd2 : (t.id :: rest.map (·.id)).Nodup := by simpa using hnd
        exact (List.nodup_cons.mp hnd2).1 hmem2
    · rw [if_neg hid]
      have hm2 : taskID ∈ t.id :: rest.map (·.id) := by
        rw [List.map_cons] at hm
        exact hm
      have hmr : taskID ∈ rest.map (·.id) := by
        rcases List.mem_cons.mp hm2 with h1 | h2
        · exact absurd h1.symm hid
        · exact h2
      obtain ⟨rest', heq, hpairs, hids, hupd⟩ :=
        ih (fun t' ht' => hok t' (List.mem_cons_of_mem t ht')) hmr
      rw [heq]
      refine ⟨t :: rest', rfl, by simp [hpairs], by simp [hids], ?_⟩
      intro hnd t'' ht'' htid
      have hnd2 : (t.id :: rest.map (·.id)).Nodup := by simpa using hnd
      rcases List.mem_cons.mp ht'' with h1 | h2
      · exact absurd (h1 ▸ htid) hid
      · exact hupd (List.nodup_cons.mp hnd2).2 t'' h2 htid

theorem utm_not_found (taskID : String) (u : Task → Task × Option Err)
    (now : Nat) :
    ∀ ms : List Module, (∀ m ∈ ms, taskID ∉ m.tasks.map (·.id)) →
      updateTaskInModules taskID u now ms = none := by
  intro ms
  induction ms with
  | nil => intro _; rfl
  | cons m rest ih =>
    intro hall
    simp only [updateTaskInModules]
    rw [utl_not_found taskID u now m.tasks (hall m (List.mem_cons_self m rest))]
    rw [ih (fun m' hm' => hall m' (List.mem_cons_of_mem m hm'))]

theorem utm_found_err (taskID : String) (u : Task → Task × Option Err)
    (now : Nat) (E : Err) :
    ∀ ms : List Module,
      (∀ m ∈ ms, ∀ t ∈ m.tasks, t.id = taskID → u t = (t, some E)) →
      (∃ m ∈ ms, taskID ∈ m.tasks.map (·.id)) →
      updateTaskInModules taskID u now ms = some (ms, some E) := by
  intro ms
  induction ms with
  | nil => intro _ hex; obtain ⟨m, hm, _⟩ := hex; cases hm
  | cons m0 rest ih =>
    intro hE hex
    simp only [updateTaskInModules]
    by_cases hmem : taskID ∈ m0.tasks.map (·.id)
    · rw [utl_found_err taskID u now E m0.tasks
        (hE m0 (List.mem_cons_self m0 rest)) hmem]
    · rw [utl_not_found taskID u now m0.tasks hmem]
      have hex' : ∃ m ∈ rest, taskID ∈ m.tasks.map (·.id) := by
        obtain ⟨m, hm, hmm⟩ := hex
        rcases List.mem_cons.mp hm with h1 | h2
        · exact absurd (h1 ▸ hmm) hmem
        · exact ⟨m, h2, hmm⟩
      rw [ih (fun m' hm' => hE m' (List.mem_cons_of_mem m0 hm')) hex']

theorem utm_found_ok (taskID : String) (u : Task → Task × Option Err)
    (now : Nat) :
    ∀ ms : List Module,
      (∀ m ∈ ms, ∀ t ∈ m.tasks, t.id = taskID → u t = (t, none)) →
      (∃ m ∈ ms, taskID ∈ m.tasks.map (·.id)) →
      ∃ ms', updateTaskInModules taskID u now ms = some (ms', none) ∧
        ms'.map (fun m => (m.name, m.tasks.map (fun t => (t.id, t.dependencies))))
          = ms.map (fun m => (m.name, m.tasks.map (fun t => (t.id, t.dependencies)))) ∧
        ms'.map (fun m => m.tasks.map (·.id)) =
          ms.map (fun m => m.tasks.map (·.id)) ∧
        (((ms.map (fun m => m.tasks.map (·.id))).flatten).Nodup →
          ∀ m' ∈ ms', ∀ t ∈ m'.tasks, t.id = taskID → t.updatedAt = now) := by
  intro ms
  induction ms with
  | nil => intro _ hex; obtain ⟨m, hm, _⟩ := hex; cases hm
  | cons m0 rest ih =>
    intro hok hex
    simp only [updateTaskInModules]
    by_cases hmem : taskID ∈ m0.tasks.map (·.id)
    · obtain ⟨ts', heq, hpairs, hids, hupd⟩ :=
        utl_found_ok taskID u now m0.tasks
          (hok m0 (List.mem_cons_self m0 rest)) hmem
      rw [heq]
      refine ⟨{ m0 with tasks := ts' } :: rest, rfl, by simp [hpairs],
        by simp [hids], ?_⟩
      intro hnd m' hm' t ht htid
      have hnd2 : (m0.tasks.map (·.id) ++
          (rest.map (fun m => m.tasks.map (·.id))).flatten).Nodup := by
        simpa using hnd
      obtain ⟨hnd0, hndrest, hdisj⟩ := List.nodup_append.mp hnd2
      rcases List.mem_cons.mp hm' with h1 | h2
      · refine hupd hnd0 t ?_ htid
        rw [h1] at ht
        exact ht
      · exfalso
        have hidflat : taskID ∈
            (rest.map (fun m => m.tasks.map (·.id))).flatten :=
          List.mem_flatten.mpr ⟨m'.tasks.map (·.id),
            List.mem_map_of_mem _ h2, htid ▸ List.mem_map_of_mem _ ht⟩
        exact hdisj hmem hidflat
    · rw [utl_not_found taskID u now m0.tasks hmem]
      have hex' : ∃ m ∈ rest, taskID ∈ m.tasks.map (·.id) := by
        obtain ⟨m, hm, hmm⟩ := hex
        rcases List.mem_cons.mp hm with h1 | h2
        · exact absurd (h1 ▸ hmm) hmem
        · exact ⟨m, h2, hmm⟩
      obtain ⟨rest', heq, hpairs, hids, hupd⟩ :=
        ih (fun m' hm' => hok m' (List.mem_cons_of_mem m0 hm')) hex'
      rw [heq]
      refine ⟨m0 :: rest', rfl, by simp [hpairs], by simp [hids], ?_⟩
      intro hnd m' hm' t ht htid
      have hnd2 : (m0.tasks.map (·.id) ++
          (rest.map (fun m => m.tasks.map (·.id))).flatten).Nodup := by
        simpa using hnd
      obtain ⟨hnd0, hndrest, hdisj⟩ := List.nodup_append.mp hnd2
      rcases List.mem_cons.mp hm' with h1 | h2
      · exfalso
        apply hmem
        rw [← htid]
        refine List.mem_map_of_mem _ ?_
        rw [h1] at ht
        exact ht
      · exact hupd hndrest m' h2 t ht htid

theorem map_tasks_flatten {β : Type} (f : Task → β) :
    ∀ ms : List Module,
      ((ms.map (·.tasks)).flatten).map f =
        (ms.map (fun m => m.tasks.map f)).flatten := by
  intro ms
  induction ms with
  | nil => rfl
  | cons m rest ih => simp [ih]

theorem utl_found_ok2 (taskID : String) (u : Task → Task × Option Err)
    (now : Nat) (hid_pres : ∀ t, ((u t).1).id = t.id) :
    ∀ ts : List Task, (∀ t ∈ ts, t.id = taskID → (u t).2 = none) →
      taskID ∈ ts.map (·.id) →
      ∃ ts', updateTaskInList taskID u now ts = some (ts', none) ∧
        ts'.map (·.id) = ts.map (·.id) := by
  intro ts
  induction ts with
  | nil => intro _ hm; cases hm
  | cons t rest ih =>
    intro hok hm
    simp only [updateTaskInList]
    by_cases hid : t.id = taskID
    · cases hu : u t with
      | mk t' e =>
        have he : e = none := by
          have hh := hok t (List.mem_cons_self t rest) hid
          rw [hu] at hh
          exact hh
        subst he
        rw [if_pos hid]
        refine ⟨{ t' with updatedAt := now } :: rest, rfl, ?_⟩
        have hid2 : t'.id = t.id := by
          have hh := hid_pres t
          rw [hu] at hh
          exact hh
        simp [hid2]
    · rw [if_neg hid]
      have hm2 : taskID ∈ t.id :: rest.map (·.id) := by
        rw [List.map_cons] at hm
        exact hm
      have hmr : taskID ∈ rest.map (·.id) := by
        rcases List.mem_cons.mp hm2 with h1 | h2
        · exact absurd h1.symm hid
        · exact h2
      obtain ⟨rest', heq, hids⟩ :=
        ih (fun t' ht' => hok t' (List.mem_cons_of_mem t ht')) hmr
      rw [heq]
      exact ⟨t :: rest', rfl, by simp [hids]⟩

theorem utm_found_ok2 (taskID : String) (u : Task → Task × Option Err)
    (now : Nat) (hid_pres : ∀ t, ((u t).1).id = t.id) :
    ∀ ms : List Module,
      (∀ m ∈ ms, ∀ t ∈ m.tasks, t.id = taskID → (u t).2 = none) →
      (∃ m ∈ ms, taskID ∈ m.tasks.map (·.id)) →
      ∃ ms', updateTaskInModules taskID u now ms = some (ms', none) ∧
        ms'.map (fun m => m.tasks.map (·.id)) =
          ms.map (fun m => m.tasks.map (·.id)) := by
  intro ms
  induction ms with
  | nil => intro _ hex; obtain ⟨m, hm, _⟩ := hex; cases hm
  | cons m0 rest ih =>
    intro hok hex
    simp only [updateTaskInModules]
    by_cases hmem : taskID ∈ m0.tasks.map (·.id)
    · obtain ⟨ts', heq, hids⟩ :=
        utl_found_ok2 taskID u now hid_pres m0.tasks
          (hok m0 (List.mem_cons_self m0 rest)) hmem
      rw [heq]
      exact ⟨{ m0 with tasks := ts' } :: rest, rfl, by simp [hids]⟩
    · rw [utl_not_found taskID u now m0.tasks hmem]
      have hex' : ∃ m ∈ rest, taskID ∈ m.tasks.map (·.id) := by
        obtain ⟨m, hm, hmm⟩ := hex
        rcases List.mem_cons.mp hm with h1 | h2
        · exact absurd (h1 ▸ hmm) hmem
        · exact ⟨m, h2, hmm⟩
      obtain ⟨rest', heq, hids⟩ :=
        ih (fun m' hm' => hok m' (List.mem_cons_of_mem m0 hm')) hex'
      rw [heq]
      exact ⟨m0 :: rest', rfl, by simp [hids]⟩

theorem updateTaskMutator_ok2 (taskID : String)
    (u : Task → Task × Option Err) (now : Nat) (p : Project)
    (hok : ∀ t ∈ p.getAllTasks, t.id = taskID → (u t).2 = none)
    (hid_pres : ∀ t, ((u t).1).id = t.id)
    (hmem : taskID ∈ p.allTaskIDs) :
    ∃ p', updateTaskMutator taskID u now p = (p', none) ∧
      p'.allTaskIDs = p.allTaskIDs := by
  by_cases hmt : taskID ∈ p.tasks.map (·.id)
  · have hsub : ∀ t ∈ p.tasks, t ∈ p.getAllTasks := by
      intro t ht
      rw [getAllTasks_eq]
      exact List.mem_append.mpr (Or.inl ht)
    obtain ⟨ts', heq, hids⟩ :=
      utl_found_ok2 taskID u now hid_pres p.tasks
        (fun t ht h => hok t (hsub t ht) h) hmt
    refine ⟨{ p with tasks := ts' }, ?_, ?_⟩
    · simp only [updateTaskMutator, heq]
    · have hga : ({ p with tasks := ts' } : Project).allTaskIDs =
          ts'.map (·.id) ++
            (p.modules.map (fun m => m.tasks.map (·.id))).flatten :=
        allTaskIDs_eq _
      rw [hga, allTaskIDs_eq, hids]
  · rw [allTaskIDs_eq] at hmem
    have hflat : taskID ∈
        (p.modules.map (fun m => m.tasks.map (·.id))).flatten := by
      rcases List.mem_append.mp hmem with h1 | h2
      · exact absurd h1 hmt
      · exact h2
    obtain ⟨l, hl, hin⟩ := List.mem_flatten.mp hflat
    obtain ⟨m, hm, hml⟩ := List.mem_map.mp hl
    rw [← hml] at hin
    have hsub : ∀ m' ∈ p.modules, ∀ t ∈ m'.tasks, t ∈ p.getAllTasks := by
      intro m' hm' t ht
      rw [getAllTasks_eq]
      exact List.mem_append.mpr (Or.inr (List.mem_flatten.mpr
        ⟨m'.tasks, List.mem_map_of_mem _ hm', ht⟩))
    obtain ⟨ms', heq, hids⟩ :=
      utm_found_ok2 taskID u now hid_pres p.modules
        (fun m' hm' t ht h => hok t (hsub m' hm' t ht) h) ⟨m, hm, hin⟩
    refine ⟨{ p with modules := ms' }, ?_, ?_⟩
    · simp only [updateTaskMutator, utl_not_found taskID u now p.tasks hmt, heq]
    · have hga : ({ p with modules := ms' } : Project).allTaskIDs =
          p.tasks.map (·.id) ++
            (ms'.map (fun m => m.tasks.map (·.id))).flatten :=
        allTaskIDs_eq _
      rw [hga, allTaskIDs_eq, hids]

theorem updateTaskMutator_err (taskID : String)
    (u : Task → Task × Option Err) (now : Nat) (p : Project) (E : Err)
    (hE : ∀ t ∈ p.getAllTasks, t.id = taskID → u t = (t, some E))
    (hmem : taskID ∈ p.allTaskIDs) :
    updateTaskMutator taskID u now p = (p, some E) := by
  have hsubt : ∀ t ∈ p.tasks, t ∈ p.getAllTasks := by
    intro t ht
    rw [getAllTasks_eq]
    exact List.mem_append.mpr (Or.inl ht)
  have hsubm : ∀ m' ∈ p.modules, ∀ t ∈ m'.tasks, t ∈ p.getAllTasks := by
    intro m' hm' t ht
    rw [getAllTasks_eq]
    exact List.mem_append.mpr (Or.inr (List.mem_flatten.mpr
      ⟨m'.tasks, List.mem_map_of_mem _ hm', ht⟩))
  by_cases hmt : taskID ∈ p.tasks.map (·.id)
  · have heq := utl_found_err taskID u now E p.tasks
      (fun t ht h => hE t (hsubt t ht) h) hmt
    simp only [updateTaskMutator, heq]
  · rw [allTaskIDs_eq] at hmem
    have hflat : taskID ∈
        (p.modules.map (fun m => m.tasks.map (·.id))).flatten := by
      rcases List.mem_append.mp hmem with h1 | h2
      · exact absurd h1 hmt
      · exact h2
    obtain ⟨l, hl, hin⟩ := List.mem_flatten.mp hflat
    obtain ⟨m, hm, hml⟩ := List.mem_map.mp hl
    rw [← hml] at hin
    have heq := utm_found_err taskID u now E p.modules
      (fun m' hm' t ht h => hE t (hsubm m' hm' t ht) h) ⟨m, hm, hin⟩
    simp only [updateTaskMutator, utl_not_found taskID u now p.tasks hmt, heq]

/-! ## FindTask lemmas -/

theorem findInModules_eq_none (id : String) :
    ∀ ms : List Module, findInModules id ms = none →
      ∀ m ∈ ms, ∀ t ∈ m.tasks, t.id ≠ id := by
  intro ms
  induction ms with
  | nil => intro _ m hm; cases hm
  | cons m0 rest ih =>
    intro h m hm t ht
    simp only [findInModules] at h
    cases hf : m0.tasks.find? (fun t => t.id == id) with
    | some t0 => rw [hf] at h; cases h
    | none =>
      rw [hf] at h
      rcases List.mem_cons.mp hm with h1 | h2
      · intro htid
        rw [h1] at ht
        have hh := List.find?_eq_none.mp hf t ht
        simp [htid] at hh
      · exact ih h m h2 t ht

theorem findTaskLoc_eq_none (p : Project) (id : String)
    (h : findTaskLoc p id = none) : id ∉ p.allTaskIDs := by
  unfold findTaskLoc at h
  cases hf : p.tasks.find? (fun t => t.id == id) with
  | some t0 => rw [hf] at h; cases h
  | none =>
    rw [hf] at h
    intro hmem
    rw [allTaskIDs_eq] at hmem
    rcases List.mem_append.mp hmem with h1 | h2
    · obtain ⟨t, ht, htid⟩ := List.mem_map.mp h1
      have hh := List.find?_eq_none.mp hf t ht
      simp [htid] at hh
    · obtain ⟨l, hl, hin⟩ := List.mem_flatten.mp h2
      obtain ⟨m, hm, hml⟩ := List.mem_map.mp hl
      rw [← hml] at hin
      obtain ⟨t, ht, htid⟩ := List.mem_map.mp hin
      exact findInModules_eq_none id p.modules h m hm t ht htid

theorem findTaskLoc_some_of_mem (p : Project) (id : String)
    (hmem : id ∈ p.allTaskIDs) : ∃ r, findTaskLoc p id = some r := by
  cases hf : findTaskLoc p id with
  | some r => exact ⟨r, rfl⟩
  | none => exact absurd hmem (findTaskLoc_eq_none p id hf)

theorem findTask_ok (st st1 : StorageState) (proj id : String) (P : Project)
    (r : Task × String) (hload : loadProject st proj = (st1, .ok P))
    (hloc : findTaskLoc P id = some r) :
    findTask st proj id = (st1, .ok r) := by
  simp only [findTask, hload, hloc]

theorem loadProject_of_cached (st : StorageState) (n : String) (p : Project)
    (h : getFromCache st n = some p) : loadProject st n = (st, .ok p) := by
  simp only [loadProject, h]

/-! ## AddTaskDependency composition lemmas -/

theorem addDepUpdater_id_pres (depID : String) (t : Task) :
    ((addDepUpdater depID t).1).id = t.id := by
  unfold addDepUpdater
  by_cases h1 : depID ∈ t.dependencies
  · rw [if_pos h1]
  · rw [if_neg h1]
    by_cases h2 : t.id = depID
    · rw [if_pos h2]
    · rw [if_neg h2]

theorem addDepUpdater_none (depID : String) (t : Task) (h : t.id ≠ depID) :
    (addDepUpdater depID t).2 = none := by
  unfold addDepUpdater
  by_cases h1 : depID ∈ t.dependencies
  · rw [if_pos h1]
  · rw [if_neg h1, if_neg h]

theorem addDep_compose_ok (env : WEnv) (st st1 : StorageState)
    (proj taskID depID : String) (now : Nat) (P P' : Project)
    (r : Task × String)
    (hload : loadProject st proj = (st1, .ok P))
    (hloc : findTaskLoc P depID = some r)
    (hmut : updateTaskMutator taskID (addDepUpdater depID) now P =
      (P', none)) :
    addTaskDependency env st proj taskID depID now =
      saveProject env (putInCache st1 proj P') proj P' := by
  have hftask := findTask_ok st st1 proj depID P r hload hloc
  have hload1 := loadProject_again st st1 proj P hload
  have hup := updateProject_ok_case env st1 st1 proj
    (updateTaskMutator taskID (addDepUpdater depID) now) P P' none hload1 hmut
  simp only [addTaskDependency, hftask, updateTask]
  exact hup

theorem addDep_compose_err (env : WEnv) (st st1 : StorageState)
    (proj taskID depID : String) (now : Nat) (P P' : Project)
    (r : Task × String) (e : Err)
    (hload : loadProject st proj = (st1, .ok P))
    (hloc : findTaskLoc P depID = some r)
    (hmut : updateTaskMutator taskID (addDepUpdater depID) now P =
      (P', some e)) :
    addTaskDependency env st proj taskID depID now =
      (putInCache st1 proj P', some e) := by
  have hftask := findTask_ok st st1 proj depID P r hload hloc
  have hload1 := loadProject_again st st1 proj P hload
  have hup := updateProject_ok_case env st1 st1 proj
    (updateTaskMutator taskID (addDepUpdater depID) now) P P' (some e) hload1
    hmut
  simp only [addTaskDependency, hftask, updateTask]
  exact hup

theorem saveProject_cached (env : WEnv) (st : StorageState) (name : String)
    (p : Project) (henv : env name = true) :
    getFromCache (saveProject env st name p).1 name = some p := by
  rw [saveProject_success env st name p henv]
  exact alookup_ainsert_self ..

/-! ## Claim C7 -/

/-- C7: for distinct existing tasks A and B of the same project,
`addTaskDependency(A, B)` and then `addTaskDependency(B, A)` both succeed —
a two-task dependency cycle is not rejected — while
`addTaskDependency(A, A)` fails with the self-dependency error and leaves
the project document (disk and the document returned by the next load)
unchanged. -/
theorem C7_two_cycle_allowed_self_rejected (env : WEnv)
    (st st1 : StorageState) (proj : String) (P : Project) (A B : Task)
    (now1 now2 now3 : Nat) (henv : env proj = true)
    (hload : loadProject st proj = (st1, .ok P))
    (hA : A ∈ P.getAllTasks) (hB : B ∈ P.getAllTasks) (hAB : A.id ≠ B.id)
    (hself : ∀ t ∈ P.getAllTasks, t.id = A.id → A.id ∉ t.dependencies) :
    (addTaskDependency env st proj A.id B.id now1).2 = none ∧
    (addTaskDependency env (addTaskDependency env st proj A.id B.id now1).1
      proj B.id A.id now2).2 = none ∧
    (addTaskDependency env st proj A.id A.id now3).2 =
      some Err.selfDependency ∧
    (addTaskDependency env st proj A.id A.id now3).1.disk = st.disk ∧
    (loadProject (addTaskDependency env st proj A.id A.id now3).1 proj).2 =
      .ok P := by
  have hAid : A.id ∈ P.allTaskIDs := List.mem_map_of_mem _ hA
  have hBid : B.id ∈ P.allTaskIDs := List.mem_map_of_mem _ hB
  obtain ⟨rB, hlocB⟩ := findTaskLoc_some_of_mem P B.id hBid
  have hnone1 : ∀ t ∈ P.getAllTasks, t.id = A.id →
      (addDepUpdater B.id t).2 = none := by
    intro t _ htid
    exact addDepUpdater_none B.id t (by rw [htid]; exact hAB)
  obtain ⟨P', hmut1, hids1⟩ := updateTaskMutator_ok2 A.id
    (addDepUpdater B.id) now1 P hnone1 (addDepUpdater_id_pres B.id) hAid
  have hcomp1 := addDep_compose_ok env st st1 proj A.id B.id now1 P P' rB
    hload hlocB hmut1
  have hc1 : (addTaskDependency env st proj A.id B.id now1).2 = none := by
    rw [hcomp1, saveProject_success env (putInCache st1 proj P') proj P' henv]
  have hcache2 : getFromCache
      (saveProject env (putInCache st1 proj P') proj P').1 proj = some P' :=
    saveProject_cached env (putInCache st1 proj P') proj P' henv
  have hload2 := loadProject_of_cached
    (saveProject env (putInCache st1 proj P') proj P').1 proj P' hcache2
  have hA2 : A.id ∈ P'.allTaskIDs := by rw [hids1]; exact hAid
  have hB2 : B.id ∈ P'.allTaskIDs := by rw [hids1]; exact hBid
  obtain ⟨rA2, hlocA2⟩ := findTaskLoc_some_of_mem P' A.id hA2
  have hnone2 : ∀ t ∈ P'.getAllTasks, t.id = B.id →
      (addDepUpdater A.id t).2 = none := by
    intro t _ htid
    exact addDepUpdater_none A.id t (by rw [htid]; exact hAB.symm)
  obtain ⟨P'', hmut2, hids2⟩ := updateTaskMutator_ok2 B.id
    (addDepUpdater A.id) now2 P' hnone2 (addDepUpdater_id_pres A.id) hB2
  have hcomp2 := addDep_compose_ok env
    (saveProject env (putInCache st1 proj P') proj P').1
    (saveProject env (putInCache st1 proj P') proj P').1 proj B.id A.id now2
    P' P'' rA2 hload2 hlocA2 hmut2
  have hc2 : (addTaskDependency env
      (addTaskDependency env st proj A.id B.id now1).1 proj B.id A.id
      now2).2 = none := by
    rw [hcomp1, hcomp2]
    show (saveProject env _ proj P'').2 = none
    rw [saveProject_success env _ proj P'' henv]
  have hE3 : ∀ t ∈ P.getAllTasks, t.id = A.id →
      addDepUpdater A.id t = (t, some Err.selfDependency) := by
    intro t ht htid
    unfold addDepUpdater
    rw [if_neg (hself t ht htid), if_pos htid]
  have hmut3 := updateTaskMutator_err A.id (addDepUpdater A.id) now3 P
    Err.selfDependency hE3 hAid
  obtain ⟨rA, hlocA⟩ := findTaskLoc_some_of_mem P A.id hAid
  have hcomp3 := addDep_compose_err env st st1 proj A.id A.id now3 P P rA
    Err.selfDependency hload hlocA hmut3
  have hdisk1 : st1.disk = st.disk := by
    have hh := (loadProject_preserves st proj).1
    rw [hload] at hh
    exact hh
  refine ⟨hc1, hc2, ?_, ?_, ?_⟩
  · rw [hcomp3]
  · rw [hcomp3]
    exact hdisk1
  · rw [hcomp3]
    show (loadProject (putInCache st1 proj P) proj).2 = Except.ok P
    rw [loadProject_of_cached (putInCache st1 proj P) proj P
      (getFromCache_putInCache_self ..)]

/-- Witness for C7 at a concrete project with two tasks. -/
theorem C7_two_cycle_allowed_self_rejected_witness :
    (addTaskDependency envAll stDemo "demo" taskA.id taskB.id 1).2 = none ∧
    (addTaskDependency envAll
      (addTaskDependency envAll stDemo "demo" taskA.id taskB.id 1).1 "demo"
      taskB.id taskA.id 2).2 = none ∧
    (addTaskDependency envAll stDemo "demo" taskA.id taskA.id 3).2 =
      some Err.selfDependency ∧
    (addTaskDependency envAll stDemo "demo" taskA.id taskA.id 3).1.disk =
      stDemo.disk ∧
    (loadProject (addTaskDependency envAll stDemo "demo" taskA.id taskA.id
        3).1 "demo").2 = .ok projDemo :=
  C7_two_cycle_allowed_self_rejected envAll stDemo
    (putInCache stDemo "demo" projDemo) "demo" projDemo taskA taskB 1 2 3
    rfl rfl (by decide) (by decide) (by decide) (by decide)

/-! ## Claim C8 -/

theorem updateTaskMutator_ok_pairs (taskID : String)
    (u : Task → Task × Option Err) (now : Nat) (p : Project)
    (hok : ∀ t ∈ p.getAllTasks, t.id = taskID → u t = (t, none))
    (hmem : taskID ∈ p.allTaskIDs) :
    ∃ p', updateTaskMutator taskID u now p = (p', none) ∧
      p'.getAllTasks.map (fun t => (t.id, t.dependencies)) =
        p.getAllTasks.map (fun t => (t.id, t.dependencies)) ∧
      p'.allTaskIDs = p.allTaskIDs ∧
      (p.allTaskIDs.Nodup →
        ∀ t ∈ p'.getAllTasks, t.id = taskID → t.updatedAt = now) := by
  have hsubt : ∀ t ∈ p.tasks, t ∈ p.getAllTasks := by
    intro t ht
    rw [getAllTasks_eq]
    exact List.mem_append.mpr (Or.inl ht)
  have hsubm : ∀ m' ∈ p.modules, ∀ t ∈ m'.tasks, t ∈ p.getAllTasks := by
    intro m' hm' t ht
    rw [getAllTasks_eq]
    exact List.mem_append.mpr (Or.inr (List.mem_flatten.mpr
      ⟨m'.tasks, List.mem_map_of_mem _ hm', ht⟩))
  by_cases hmt : taskID ∈ p.tasks.map (·.id)
  · obtain ⟨ts', heq, hpairs, hids, hupd⟩ :=
      utl_found_ok taskID u now p.tasks (fun t ht h => hok t (hsubt t ht) h)
        hmt
    refine ⟨{ p with tasks := ts' }, by simp only [updateTaskMutator, heq],
      ?_, ?_, ?_⟩
    · have hga : ({ p with tasks := ts' } : Project).getAllTasks =
          ts' ++ (p.modules.map (·.tasks)).flatten := getAllTasks_eq _
      rw [hga, getAllTasks_eq, List.map_append, List.map_append, hpairs]
    · have hga2 : ({ p with tasks := ts' } : Project).allTaskIDs =
          ts'.map (·.id) ++
            (p.modules.map (fun m => m.tasks.map (·.id))).flatten :=
        allTaskIDs_eq _
      rw [hga2, allTaskIDs_eq, hids]
    · intro hnd t ht htid
      rw [allTaskIDs_eq] at hnd
      obtain ⟨hndt, hndm, hdisj⟩ := List.nodup_append.mp hnd
      have hga : ({ p with tasks := ts' } : Project).getAllTasks =
          ts' ++ (p.modules.map (·.tasks)).flatten := getAllTasks_eq _
      rw [hga] at ht
      rcases List.mem_append.mp ht with h1 | h2
      · exact hupd hndt t h1 htid
      · exfalso
        have h3 : t.id ∈ ((p.modules.map (·.tasks)).flatten).map
            (fun t => t.id) := List.mem_map_of_mem _ h2
        rw [map_id_flatten] at h3
        rw [htid] at h3
        exact hdisj hmt h3
  · rw [allTaskIDs_eq] at hmem
    have hflat : taskID ∈
        (p.modules.map (fun m => m.tasks.map (·.id))).flatten := by
      rcases List.mem_append.mp hmem with h1 | h2
      · exact absurd h1 hmt
      · exact h2
    obtain ⟨l, hl, hin⟩ := List.mem_flatten.mp hflat
    obtain ⟨m, hm, hml⟩ := List.mem_map.mp hl
    rw [← hml] at hin
    obtain ⟨ms', heq, hpairs, hids, hupd⟩ :=
      utm_found_ok taskID u now p.modules
        (fun m' hm' t ht h => hok t (hsubm m' hm' t ht) h) ⟨m, hm, hin⟩
    refine ⟨{ p with modules := ms' },
      by simp only [updateTaskMutator,
        utl_not_found taskID u now p.tasks hmt, heq], ?_, ?_, ?_⟩
    · have hga : ({ p with modules := ms' } : Project).getAllTasks =
          p.tasks ++ (ms'.map (·.tasks)).flatten := getAllTasks_eq _
      rw [hga, getAllTasks_eq, List.map_append, List.map_append]
      congr 1
      rw [map_tasks_flatten, map_tasks_flatten]
      congr 1
      have h4 := congrArg (List.map Prod.snd) hpairs
      rw [List.map_map, List.map_map] at h4
      exact h4
    · have hga2 : ({ p with modules := ms' } : Project).allTaskIDs =
          p.tasks.map (·.id) ++
            (ms'.map (fun m => m.tasks.map (·.id))).flatten :=
        allTaskIDs_eq _
      rw [hga2, allTaskIDs_eq, hids]
    · intro hnd t ht htid
      rw [allTaskIDs_eq] at hnd
      obtain ⟨hndt, hndm, hdisj⟩ := List.nodup_append.mp hnd
      have hga : ({ p with modules := ms' } : Project).getAllTasks =
          p.tasks ++ (ms'.map (·.tasks)).flatten := getAllTasks_eq _
      rw [hga] at ht
      rcases List.mem_append.mp ht with h1 | h2
      · exfalso
        apply hmt
        rw [← htid]
        exact List.mem_map_of_mem _ h1
      · obtain ⟨l2, hl2, hin2⟩ := List.mem_flatten.mp h2
        obtain ⟨m2, hm2, hml2⟩ := List.mem_map.mp hl2
        rw [← hml2] at hin2
        exact hupd hndm m2 hm2 t hin2 htid

/-- C8 (amended): calling `AddTaskDependency` with a dependency already in
the task's dependency list returns success, never introduces a duplicate —
the (id, dependency-list) content of every task in the document is unchanged
— but the operation still refreshes the target task's `UpdatedAt` timestamp
and re-saves the document to disk. -/
theorem C8_addDep_existing_idempotent (env : WEnv) (st st1 : StorageState)
    (proj : String) (P : Project) (taskID depID : String) (now : Nat)
    (henv : env proj = true)
    (hload : loadProject st proj = (st1, .ok P))
    (hpresent : ∀ t ∈ P.getAllTasks, t.id = taskID → depID ∈ t.dependencies)
    (hmem : taskID ∈ P.allTaskIDs) (hdep : depID ∈ P.allTaskIDs)
    (hnd : P.allTaskIDs.Nodup) :
    (addTaskDependency env st proj taskID depID now).2 = none ∧
    ∃ P', getFromCache (addTaskDependency env st proj taskID depID now).1
        proj = some P' ∧
      alookup (addTaskDependency env st proj taskID depID now).1.disk proj =
        some (DiskDoc.good P') ∧
      P'.getAllTasks.map (fun t => (t.id, t.dependencies)) =
        P.getAllTasks.map (fun t => (t.id, t.dependencies)) ∧
      (∀ t ∈ P'.getAllTasks, t.id = taskID → t.updatedAt = now) := by
  have hok : ∀ t ∈ P.getAllTasks, t.id = taskID →
      addDepUpdater depID t = (t, none) := by
    intro t ht htid
    unfold addDepUpdater
    rw [if_pos (hpresent t ht htid)]
  obtain ⟨P', hmut, hpairs, hids, hupd⟩ :=
    updateTaskMutator_ok_pairs taskID (addDepUpdater depID) now P hok hmem
  obtain ⟨r, hloc⟩ := findTaskLoc_some_of_mem P depID hdep
  have hcomp := addDep_compose_ok env st st1 proj taskID depID now P P' r
    hload hloc hmut
  constructor
  · rw [hcomp, saveProject_success env (putInCache st1 proj P') proj P' henv]
  · refine ⟨P', ?_, ?_, hpairs, hupd hnd⟩
    · rw [hcomp]
      exact saveProject_cached env (putInCache st1 proj P') proj P' henv
    · rw [hcomp, saveProject_success env (putInCache st1 proj P') proj P'
        henv]
      exact alookup_ainsert_self ..

/-- Counterexample to C8 as stated: re-adding an existing dependency
succeeds and keeps the dependency list, but the returned document is not
unchanged — the task's `UpdatedAt` timestamp is refreshed. -/
theorem C8_counterexample :
    (addTaskDependency envAll stDep "demo" "aaaaaaaa" "bbbbbbbb" 5).2 =
      none ∧
    "bbbbbbbb" ∈ taskAdep.dependencies ∧
    getFromCache (addTaskDependency envAll stDep "demo" "aaaaaaaa" "bbbbbbbb"
        5).1 "demo" =
      some { projDep with tasks := [{ taskAdep with updatedAt := 5 }, taskB] } ∧
    ({ projDep with tasks := [{ taskAdep with updatedAt := 5 }, taskB] } :
      Project) ≠ projDep := by
  refine ⟨rfl, by decide, rfl, by decide⟩

/-- Witness for C8 at a concrete state whose task already has the
dependency. -/
theorem C8_addDep_existing_idempotent_witness :
    (addTaskDependency envAll stDep "demo" "aaaaaaaa" "bbbbbbbb" 7).2 =
      none ∧
    ∃ P', getFromCache (addTaskDependency envAll stDep "demo" "aaaaaaaa"
        "bbbbbbbb" 7).1 "demo" = some P' ∧
      alookup (addTaskDependency envAll stDep "demo" "aaaaaaaa" "bbbbbbbb"
        7).1.disk "demo" = some (DiskDoc.good P') ∧
      P'.getAllTasks.map (fun t => (t.id, t.dependencies)) =
        projDep.getAllTasks.map (fun t => (t.id, t.dependencies)) ∧
      (∀ t ∈ P'.getAllTasks, t.id = "aaaaaaaa" → t.updatedAt = 7) :=
  C8_addDep_existing_idempotent envAll stDep
    (putInCache stDep "demo" projDep) "demo" projDep "aaaaaaaa" "bbbbbbbb" 7
    rfl rfl (by decide) (by decide) (by decide) (by decide)

end Qix
